import Mathlib

/-!
Verification development for the Alexandria memory service.

This file shallowly embeds the core data/operation model of the repository
(knowledge store, secret store, context graph store, identity resolver,
semantic similarity scanner) and proves or refutes the specified properties.

Conventions of the embedding:
* SQL tables are Lean lists of rows; a `QueryRow`/`find?` returns the first
  matching row; an `UPDATE` maps over all rows matching its `WHERE` clause;
  a `DELETE` filters them out.
* Go string-typed enums (`KnowledgeScope`, `RelevanceDecay`, ...) are plain
  `String`s with the source's named constants, so `switch` defaults behave
  exactly as in the source.
* Timestamps are rationals (in hours, e.g. `time.Since(c).Hours()`),
  confidences and similarities are rationals; the real-valued decay
  multiplier `math.Pow(0.5, x)` is modelled with `Real.rpow`.
* The pgvector cosine-distance operator `<=>` is an injected parameter
  `dist`, as the store engine is an external collaborator.
* Fallible operations return `Except String`; a transaction that fails
  returns the pre-state (rollback) via the `...Tx` wrappers.
-/

namespace Alexandria

/-- Go `type KnowledgeCategory string`. -/
abbrev KnowledgeCategory := String

def CategoryDiscovery : KnowledgeCategory := "discovery"

/-- Go `type KnowledgeScope string`. -/
abbrev KnowledgeScope := String

def ScopePublic : KnowledgeScope := "public"

def ScopePrivate : KnowledgeScope := "private"

def ScopeShared : KnowledgeScope := "shared"

/-- Go `type RelevanceDecay string`. -/
abbrev RelevanceDecay := String

def DecayNone : RelevanceDecay := "none"

def DecaySlow : RelevanceDecay := "slow"

def DecayFast : RelevanceDecay := "fast"

def DecayEphemeral : RelevanceDecay := "ephemeral"

/-- An embedding vector (`pgvector.Vector`). -/
abbrev Vec := List ℚ

/-- Row of `vault_knowledge` (struct `KnowledgeEntry` plus the soft-delete
column `deleted_at`, which the Go struct does not surface but every query
filters on). -/
structure KnowledgeEntry where
  id : String
  content : String
  summary : Option String
  sourceAgent : String
  category : KnowledgeCategory
  scope : KnowledgeScope
  sharedWith : List String
  tags : List String
  embedding : Option Vec
  sourceEventID : Option String
  confidence : ℚ
  relevanceDecay : RelevanceDecay
  expiresAt : Option ℚ
  supersededBy : Option String
  createdAt : ℚ
  updatedAt : ℚ
  deletedAt : Option ℚ
  deriving DecidableEq, Repr

/-- `KnowledgeFilter` from `knowledge.go`. -/
structure KnowledgeFilter where
  category : Option KnowledgeCategory
  scope : Option KnowledgeScope
  sourceAgent : Option String
  tags : List String
  agentID : String
  limit : Int
  offset : Int
  deriving DecidableEq, Repr

/-- `SearchInput` from `knowledge.go`. -/
structure SearchInput where
  queryEmbedding : Vec
  limit : Int
  scope : Option KnowledgeScope
  categories : List KnowledgeCategory
  agentID : String
  minRelevance : ℚ
  includeExpired : Bool
  deriving DecidableEq, Repr

/-- `canAccess` from `knowledge.go`: the visibility predicate used by `GetByID`. -/
def canAccess (entry : KnowledgeEntry) (agentID : String) : Bool :=
  if entry.sourceAgent = agentID ∨ agentID = "warren" then true
  else if entry.scope = ScopePublic then true
  else if entry.scope = ScopePrivate then false
  else if entry.scope = ScopeShared then
    entry.sharedWith.any (fun a => a = agentID ∨ a = "*")
  else false

/-- `applyDecay` from `knowledge.go`: relevance decay based on entry age.
Timestamps are in hours, so `ageDays := (now - createdAt) / 24` mirrors
`time.Since(createdAt).Hours() / 24`. -/
noncomputable def applyDecay (similarity : ℝ) (decay : RelevanceDecay)
    (createdAt now : ℚ) : ℝ :=
  if decay = DecayNone then similarity
  else if decay = DecaySlow then
    similarity * (0.5 : ℝ) ^ ((((now - createdAt : ℚ) : ℝ) / 24) / 30)
  else if decay = DecayFast then
    similarity * (0.5 : ℝ) ^ ((((now - createdAt : ℚ) : ℝ) / 24) / 7)
  else if decay = DecayEphemeral then
    similarity * (0.5 : ℝ) ^ ((((now - createdAt : ℚ) : ℝ) / 24) / 1)
  else similarity

end Alexandria

namespace Alexandria

lemma half_rpow_strict_anti {x y : ℝ} (h : x < y) :
    (0.5 : ℝ) ^ y < (0.5 : ℝ) ^ x :=
  Real.rpow_lt_rpow_of_exponent_gt (by norm_num) (by norm_num) h

lemma age_exponent_lt (h : ℝ) {c n₁ n₂ : ℚ} (hn : n₁ < n₂) (hh : 0 < h) :
    (((n₁ - c : ℚ) : ℝ) / 24) / h < (((n₂ - c : ℚ) : ℝ) / 24) / h := by
  have h1 : ((n₁ - c : ℚ) : ℝ) < ((n₂ - c : ℚ) : ℝ) := by
    exact_mod_cast sub_lt_sub_right hn c
  have h24 : ((n₁ - c : ℚ) : ℝ) / 24 < ((n₂ - c : ℚ) : ℝ) / 24 := by
    apply div_lt_div_of_pos_right h1 (by norm_num)
  exact div_lt_div_of_pos_right h24 hh

lemma applyDecay_none_eq (s : ℝ) (c n : ℚ) : applyDecay s DecayNone c n = s := by
  simp [applyDecay, DecayNone]

lemma applyDecay_slow_eq (s : ℝ) (c n : ℚ) :
    applyDecay s DecaySlow c n =
      s * (0.5 : ℝ) ^ ((((n - c : ℚ) : ℝ) / 24) / 30) := by
  simp [applyDecay, DecayNone, DecaySlow]

lemma applyDecay_fast_eq (s : ℝ) (c n : ℚ) :
    applyDecay s DecayFast c n =
      s * (0.5 : ℝ) ^ ((((n - c : ℚ) : ℝ) / 24) / 7) := by
  simp [applyDecay, DecayNone, DecaySlow, DecayFast]

lemma applyDecay_ephemeral_eq (s : ℝ) (c n : ℚ) :
    applyDecay s DecayEphemeral c n =
      s * (0.5 : ℝ) ^ ((((n - c : ℚ) : ℝ) / 24) / 1) := by
  simp [applyDecay, DecayNone, DecaySlow, DecayFast, DecayEphemeral]

lemma decay_branch_lt (s : ℝ) (c n₁ n₂ : ℚ) (h : ℝ) (hs : 0 < s)
    (hn : n₁ < n₂) (hh : 0 < h) :
    s * (0.5 : ℝ) ^ ((((n₂ - c : ℚ) : ℝ) / 24) / h) <
      s * (0.5 : ℝ) ^ ((((n₁ - c : ℚ) : ℝ) / 24) / h) :=
  mul_lt_mul_of_pos_left (half_rpow_strict_anti (age_exponent_lt h hn hh)) hs

/-- C6 (amended): the decayed score equals
`s * 0.5 ^ (age_days / half_life_days)` with half-life 30/7/1 days for
slow/fast/ephemeral and is `s` unchanged for `none`; for fixed positive
similarity the decayed score strictly decreases in age for
slow/fast/ephemeral and is constant in age for `none`. -/
theorem applyDecay_formula_and_monotone :
    (∀ (s : ℝ) (c n : ℚ), applyDecay s DecayNone c n = s) ∧
    (∀ (s : ℝ) (c n : ℚ), applyDecay s DecaySlow c n =
      s * (0.5 : ℝ) ^ ((((n - c : ℚ) : ℝ) / 24) / 30)) ∧
    (∀ (s : ℝ) (c n : ℚ), applyDecay s DecayFast c n =
      s * (0.5 : ℝ) ^ ((((n - c : ℚ) : ℝ) / 24) / 7)) ∧
    (∀ (s : ℝ) (c n : ℚ), applyDecay s DecayEphemeral c n =
      s * (0.5 : ℝ) ^ ((((n - c : ℚ) : ℝ) / 24) / 1)) ∧
    (∀ (s : ℝ) (c n₁ n₂ : ℚ), 0 < s → n₁ < n₂ →
      applyDecay s DecaySlow c n₂ < applyDecay s DecaySlow c n₁ ∧
      applyDecay s DecayFast c n₂ < applyDecay s DecayFast c n₁ ∧
      applyDecay s DecayEphemeral c n₂ < applyDecay s DecayEphemeral c n₁ ∧
      applyDecay s DecayNone c n₂ = applyDecay s DecayNone c n₁) := by
  refine ⟨applyDecay_none_eq, applyDecay_slow_eq, applyDecay_fast_eq,
    applyDecay_ephemeral_eq, ?_⟩
  intro s c n₁ n₂ hs hn
  refine ⟨?_, ?_, ?_, by rw [applyDecay_none_eq, applyDecay_none_eq]⟩
  · rw [applyDecay_slow_eq, applyDecay_slow_eq]
    exact decay_branch_lt s c n₁ n₂ 30 hs hn (by norm_num)
  · rw [applyDecay_fast_eq, applyDecay_fast_eq]
    exact decay_branch_lt s c n₁ n₂ 7 hs hn (by norm_num)
  · rw [applyDecay_ephemeral_eq, applyDecay_ephemeral_eq]
    exact decay_branch_lt s c n₁ n₂ 1 hs hn (by norm_num)

/-- C6 counterexample: at similarity `0` (decay class `slow`, created at 0),
increasing the age from 24 h to 48 h does not strictly decrease the decayed
score, so the claim's unconditional strict monotonicity fails. -/
theorem applyDecay_not_strict_at_zero :
    ¬ applyDecay 0 DecaySlow 0 48 < applyDecay 0 DecaySlow 0 24 := by
  simp [applyDecay, DecayNone, DecaySlow]

/-- C6 witness: the amended theorem applied at `s = 1`, `createdAt = 0`,
ages 24 h and 48 h. -/
theorem applyDecay_monotone_witness :
    applyDecay 1 DecaySlow 0 48 < applyDecay 1 DecaySlow 0 24 :=
  (applyDecay_formula_and_monotone.2.2.2.2 1 0 24 48 (by norm_num) (by norm_num)).1

end Alexandria

namespace Alexandria

/-- The non-ACL `WHERE` conditions built by `KnowledgeStore.List`
(category, scope, source_agent, and the `tags && $n` array-overlap filter,
each added only when the filter field is set). -/
def matchesFilters (f : KnowledgeFilter) (e : KnowledgeEntry) : Bool :=
  (match f.category with | some c => e.category = c | none => true) &&
  (match f.scope with | some sc => e.scope = sc | none => true) &&
  (match f.sourceAgent with | some sa => e.sourceAgent = sa | none => true) &&
  (f.tags.isEmpty || f.tags.any (fun t => e.tags.contains t))

/-- The access-control disjunct `List` and `Search` put in their SQL:
`(scope = 'public' OR source_agent = $a OR (scope = 'shared' AND $a = ANY(shared_with)))`. -/
def listACL (agentID : String) (e : KnowledgeEntry) : Bool :=
  e.scope = ScopePublic || e.sourceAgent = agentID ||
    (e.scope = ScopeShared && e.sharedWith.contains agentID)

/-- Full `WHERE` clause of `KnowledgeStore.List`. -/
def listWhere (f : KnowledgeFilter) (e : KnowledgeEntry) : Bool :=
  e.deletedAt.isNone && matchesFilters f e && listACL f.agentID e

/-- `List`'s effective limit: `if limit <= 0 || limit > 100 { limit = 50 }`. -/
def effListLimit (f : KnowledgeFilter) : Int :=
  if f.limit ≤ 0 ∨ 100 < f.limit then 50 else f.limit

/-- `List`'s effective offset: `if offset < 0 { offset = 0 }`. -/
def effListOffset (f : KnowledgeFilter) : Int :=
  if f.offset < 0 then 0 else f.offset

/-- `KnowledgeStore.List`: filter, order by `created_at DESC`, then
`LIMIT`/`OFFSET`. -/
def KnowledgeStore.list (table : List KnowledgeEntry) (f : KnowledgeFilter) :
    List KnowledgeEntry :=
  (((table.filter (listWhere f)).mergeSort
      (fun a b => decide (b.createdAt ≤ a.createdAt))).drop
    (effListOffset f).toNat).take (effListLimit f).toNat

lemma effListOffset_eq_zero {f : KnowledgeFilter} (hoff : f.offset ≤ 0) :
    effListOffset f = 0 := by
  unfold effListOffset
  split
  · rfl
  · omega

/-- C1 (amended): with a non-positive offset and no truncation by the limit,
`List` returns exactly the non-deleted entries matching the filters that
satisfy `List`'s own SQL visibility disjunct — requester owns the entry, or
the scope is public, or the scope is shared and the requester is listed in
`shared_with`.  Unlike `Get`'s `canAccess`, the admin identity `warren` and
the `*` wildcard entry grant nothing here. -/
theorem knowledgeList_mem_iff (table : List KnowledgeEntry)
    (f : KnowledgeFilter) (e : KnowledgeEntry) (hoff : f.offset ≤ 0)
    (hlen : (table.filter (listWhere f)).length ≤ (effListLimit f).toNat) :
    e ∈ KnowledgeStore.list table f ↔
      e ∈ table ∧ e.deletedAt = none ∧ matchesFilters f e = true ∧
        (e.scope = ScopePublic ∨ e.sourceAgent = f.agentID ∨
          (e.scope = ScopeShared ∧ f.agentID ∈ e.sharedWith)) := by
  unfold KnowledgeStore.list
  rw [effListOffset_eq_zero hoff]
  simp only [Int.toNat_zero, List.drop_zero]
  rw [List.take_of_length_le (by rw [List.length_mergeSort]; exact hlen)]
  rw [List.mem_mergeSort, List.mem_filter]
  unfold listWhere listACL
  simp [Option.isNone_iff_eq_none, and_assoc, or_assoc]

/-- C1 counterexample: a private entry owned by `alice` is visible to the
admin identity `warren` under `Get`'s predicate `canAccess` and matches an
otherwise-empty filter, yet `List` (agent `warren`, limit 10, offset 0)
omits it: the claimed Get/List visibility equivalence fails. -/
theorem knowledgeList_admin_counterexample :
    canAccess
      { id := "k1", content := "c", summary := none, sourceAgent := "alice",
        category := "discovery", scope := ScopePrivate, sharedWith := [],
        tags := [], embedding := none, sourceEventID := none, confidence := 1,
        relevanceDecay := DecaySlow, expiresAt := none, supersededBy := none,
        createdAt := 0, updatedAt := 0, deletedAt := none } "warren" = true ∧
    matchesFilters
      { category := none, scope := none, sourceAgent := none, tags := [],
        agentID := "warren", limit := 10, offset := 0 }
      { id := "k1", content := "c", summary := none, sourceAgent := "alice",
        category := "discovery", scope := ScopePrivate, sharedWith := [],
        tags := [], embedding := none, sourceEventID := none, confidence := 1,
        relevanceDecay := DecaySlow, expiresAt := none, supersededBy := none,
        createdAt := 0, updatedAt := 0, deletedAt := none } = true ∧
    KnowledgeStore.list
      [{ id := "k1", content := "c", summary := none, sourceAgent := "alice",
         category := "discovery", scope := ScopePrivate, sharedWith := [],
         tags := [], embedding := none, sourceEventID := none, confidence := 1,
         relevanceDecay := DecaySlow, expiresAt := none, supersededBy := none,
         createdAt := 0, updatedAt := 0, deletedAt := none }]
      { category := none, scope := none, sourceAgent := none, tags := [],
        agentID := "warren", limit := 10, offset := 0 } = [] := by
  refine ⟨by decide, by decide, ?_⟩
  simp [KnowledgeStore.list, listWhere, matchesFilters, listACL,
    ScopePublic, ScopePrivate, ScopeShared]

/-- C1 witness: the amended theorem applied to a one-entry public table read
by an unrelated agent `bob`. -/
theorem knowledgeList_mem_witness :
    { id := "k2", content := "c", summary := none, sourceAgent := "alice",
      category := "discovery", scope := ScopePublic, sharedWith := [],
      tags := [], embedding := none, sourceEventID := none, confidence := 1,
      relevanceDecay := DecaySlow, expiresAt := none, supersededBy := none,
      createdAt := 0, updatedAt := 0,
      deletedAt := none } ∈
    KnowledgeStore.list
      [{ id := "k2", content := "c", summary := none, sourceAgent := "alice",
         category := "discovery", scope := ScopePublic, sharedWith := [],
         tags := [], embedding := none, sourceEventID := none, confidence := 1,
         relevanceDecay := DecaySlow, expiresAt := none, supersededBy := none,
         createdAt := 0, updatedAt := 0, deletedAt := none }]
      { category := none, scope := none, sourceAgent := none, tags := [],
        agentID := "bob", limit := 10, offset := 0 } :=
  (knowledgeList_mem_iff _ _ _ (by decide) (by decide)).mpr
    (by refine ⟨by decide, by decide, by decide, Or.inl (by decide)⟩)

end Alexandria

namespace Alexandria

/-- The row's cosine distance to the query (`embedding <=> $q`); 0 on a NULL
embedding (such rows are excluded by `embedding IS NOT NULL` anyway). -/
def distVal (dist : Vec → Vec → ℚ) (q : Vec) (e : KnowledgeEntry) : ℚ :=
  match e.embedding with
  | some v => dist q v
  | none => 0

/-- `Search`'s effective limit: `if limit <= 0 || limit > 100 { limit = 10 }`. -/
def effSearchLimit (input : SearchInput) : Int :=
  if input.limit ≤ 0 ∨ 100 < input.limit then 10 else input.limit

/-- `Search`'s effective relevance floor: `if minSim <= 0 { minSim = 0.5 }`. -/
def effMinSim (input : SearchInput) : ℚ :=
  if input.minRelevance ≤ 0 then 0.5 else input.minRelevance

/-- Full `WHERE` clause of `KnowledgeStore.Search`. -/
def searchWhere (dist : Vec → Vec → ℚ) (input : SearchInput) (now minSim : ℚ)
    (e : KnowledgeEntry) : Bool :=
  e.deletedAt.isNone &&
  e.supersededBy.isNone &&
  (input.includeExpired ||
    (match e.expiresAt with | none => true | some t => decide (now < t))) &&
  (match input.scope with | some sc => e.scope = sc | none => true) &&
  (input.categories.isEmpty || input.categories.contains e.category) &&
  listACL input.agentID e &&
  e.embedding.isSome &&
  (match e.embedding with
   | some v => decide (minSim ≤ 1 - dist input.queryEmbedding v)
   | none => false)

/-- The rows `Search`'s SQL returns: filtered, ordered by raw cosine
distance ascending, limited, each with its raw similarity
`1 - (embedding <=> $q)`. -/
def KnowledgeStore.searchRows (dist : Vec → Vec → ℚ)
    (table : List KnowledgeEntry) (input : SearchInput) (now : ℚ) :
    List (KnowledgeEntry × ℚ) :=
  (((table.filter (searchWhere dist input now (effMinSim input))).mergeSort
      (fun a b => decide (distVal dist input.queryEmbedding a ≤
        distVal dist input.queryEmbedding b))).take
    (effSearchLimit input).toNat).map
    (fun e => (e, 1 - distVal dist input.queryEmbedding e))

/-- `KnowledgeStore.Search`: the scan loop applies `applyDecay` to each
returned similarity in place, without re-sorting. -/
noncomputable def KnowledgeStore.search (dist : Vec → Vec → ℚ)
    (table : List KnowledgeEntry) (input : SearchInput) (now : ℚ) :
    List (KnowledgeEntry × ℝ) :=
  (KnowledgeStore.searchRows dist table input now).map
    (fun r => (r.1, applyDecay (r.2 : ℝ) r.1.relevanceDecay r.1.createdAt now))

lemma expiry_cond_iff (o : Option ℚ) (now : ℚ) :
    ((match o with | none => true | some t => decide (now < t)) = true) ↔
      (∀ t, o = some t → now < t) := by
  cases o <;> simp

lemma embedding_cond_iff (o : Option Vec) (minSim : ℚ) (q : Vec)
    (dist : Vec → Vec → ℚ) :
    ((match o with
      | some v => decide (minSim ≤ 1 - dist q v)
      | none => false) = true) ↔
      (∃ v, o = some v ∧ minSim ≤ 1 - dist q v) := by
  cases o <;> simp

lemma scope_cond_iff (o : Option KnowledgeScope) (s : KnowledgeScope) :
    ((match o with | some sc => decide (s = sc) | none => true) = true) ↔
      (∀ sc, o = some sc → s = sc) := by
  cases o <;> simp

end Alexandria

namespace Alexandria

lemma categories_cond_iff (cats : List KnowledgeCategory)
    (c : KnowledgeCategory) :
    ((cats.isEmpty || cats.contains c) = true) ↔ (cats ≠ [] → c ∈ cats) := by
  cases cats <;> simp

/-- C5 (amended): unconditionally, `Search` returns only table entries
that are non-deleted, not superseded, pass the optional expiry filter, the
optional scope/category filters, `Search`'s own SQL visibility disjunct
(owner, public, or shared-and-listed — no `warren` override, no `*`
wildcard), have an embedding, and have raw similarity `1 - dist` at least
the floor (`0.5` substituted when the caller passes a non-positive
`min_relevance`); results are ordered ascending by raw cosine distance,
and each reported relevance is the decayed raw similarity, with no re-sort
after decay.  When the matching rows all fit within the effective limit,
every such entry is returned. -/
theorem knowledgeSearch_characterisation (dist : Vec → Vec → ℚ)
    (table : List KnowledgeEntry) (input : SearchInput) (now : ℚ) :
    (∀ e : KnowledgeEntry,
      e ∈ (KnowledgeStore.search dist table input now).map Prod.fst →
        e ∈ table ∧ e.deletedAt = none ∧ e.supersededBy = none ∧
          (input.includeExpired = true ∨ ∀ t, e.expiresAt = some t → now < t) ∧
          (∀ sc, input.scope = some sc → e.scope = sc) ∧
          (input.categories ≠ [] → e.category ∈ input.categories) ∧
          (e.scope = ScopePublic ∨ e.sourceAgent = input.agentID ∨
            (e.scope = ScopeShared ∧ input.agentID ∈ e.sharedWith)) ∧
          (∃ v, e.embedding = some v ∧
            effMinSim input ≤ 1 - dist input.queryEmbedding v)) ∧
    (input.minRelevance ≤ 0 → effMinSim input = 0.5) ∧
    (KnowledgeStore.search dist table input now).Pairwise
      (fun p q => distVal dist input.queryEmbedding p.1 ≤
        distVal dist input.queryEmbedding q.1) ∧
    (∀ p ∈ KnowledgeStore.search dist table input now,
      p.2 = applyDecay ((1 - distVal dist input.queryEmbedding p.1 : ℚ) : ℝ)
        p.1.relevanceDecay p.1.createdAt now) ∧
    ((table.filter (searchWhere dist input now (effMinSim input))).length ≤
        (effSearchLimit input).toNat →
      ∀ e : KnowledgeEntry,
        e ∈ table ∧ e.deletedAt = none ∧ e.supersededBy = none ∧
          (input.includeExpired = true ∨ ∀ t, e.expiresAt = some t → now < t) ∧
          (∀ sc, input.scope = some sc → e.scope = sc) ∧
          (input.categories ≠ [] → e.category ∈ input.categories) ∧
          (e.scope = ScopePublic ∨ e.sourceAgent = input.agentID ∨
            (e.scope = ScopeShared ∧ input.agentID ∈ e.sharedWith)) ∧
          (∃ v, e.embedding = some v ∧
            effMinSim input ≤ 1 - dist input.queryEmbedding v) →
        e ∈ (KnowledgeStore.search dist table input now).map Prod.fst) := by
  refine ⟨?_, ?_, ?_, ?_, ?_⟩
  · intro e he
    unfold KnowledgeStore.search KnowledgeStore.searchRows at he
    simp only [List.map_map, List.mem_map, Function.comp] at he
    obtain ⟨x, hx, hfst⟩ := he
    have hx2 := List.mem_filter.mp
      (List.mem_mergeSort.mp (List.mem_of_mem_take hx))
    obtain ⟨hmem, hwhere⟩ := hx2
    subst hfst
    unfold searchWhere listACL at hwhere
    simp only [Bool.and_eq_true, Bool.or_eq_true, decide_eq_true_eq,
      Option.isNone_iff_eq_none, Option.isSome_iff_exists,
      List.isEmpty_iff, List.elem_iff] at hwhere
    obtain ⟨⟨⟨⟨⟨⟨⟨h1, h2⟩, h3⟩, h4⟩, h5⟩, h6⟩, h7⟩, h8⟩ := hwhere
    refine ⟨hmem, h1, h2, ?_, ?_, ?_, ?_, ?_⟩
    · rcases h3 with h3 | h3
      · exact Or.inl h3
      · exact Or.inr ((expiry_cond_iff _ _).mp h3)
    · intro sc hsc
      rw [hsc] at h4
      simpa using h4
    · intro hne
      rcases h5 with h5 | h5
      · exact absurd h5 hne
      · exact h5
    · rcases h6 with (h6 | h6) | h6
      · exact Or.inl h6
      · exact Or.inr (Or.inl h6)
      · exact Or.inr (Or.inr ⟨h6.1, h6.2⟩)
    · exact (embedding_cond_iff _ _ _ _).mp h8
  · intro h
    unfold effMinSim
    rw [if_pos h]
  · have hsorted := @List.sorted_mergeSort _
      (fun a b => decide (distVal dist input.queryEmbedding a ≤
        distVal dist input.queryEmbedding b))
      (fun a b c hab hbc => by
        simp only [decide_eq_true_eq] at *
        exact le_trans hab hbc)
      (fun a b => by
        simp only [Bool.or_eq_true, decide_eq_true_eq]
        exact le_total _ _)
      (table.filter (searchWhere dist input now (effMinSim input)))
    have htake := List.Pairwise.sublist
      (List.take_sublist (effSearchLimit input).toNat _) hsorted
    unfold KnowledgeStore.search KnowledgeStore.searchRows
    rw [List.pairwise_map, List.pairwise_map]
    exact htake.imp (fun h => by simpa using h)
  · intro p hp
    unfold KnowledgeStore.search at hp
    rw [List.mem_map] at hp
    obtain ⟨r, hr, hpr⟩ := hp
    unfold KnowledgeStore.searchRows at hr
    simp only [List.mem_map] at hr
    obtain ⟨e, _, her⟩ := hr
    subst hpr
    rw [← her]
  · intro hlen e he
    obtain ⟨hmem, h1, h2, h3, h4, h5, h6, h7⟩ := he
    unfold KnowledgeStore.search KnowledgeStore.searchRows
    rw [List.take_of_length_le (by rw [List.length_mergeSort]; exact hlen)]
    simp only [List.map_map, List.mem_map, Function.comp]
    refine ⟨e, ?_, rfl⟩
    rw [List.mem_mergeSort, List.mem_filter]
    refine ⟨hmem, ?_⟩
    unfold searchWhere listACL
    simp only [Bool.and_eq_true, Bool.or_eq_true, decide_eq_true_eq,
      Option.isNone_iff_eq_none, Option.isSome_iff_exists,
      List.isEmpty_iff, List.elem_iff]
    refine ⟨⟨⟨⟨⟨⟨⟨h1, h2⟩, ?_⟩, ?_⟩, ?_⟩, ?_⟩, ?_⟩, ?_⟩
    · rcases h3 with h3 | h3
      · exact Or.inl h3
      · exact Or.inr ((expiry_cond_iff _ _).mpr h3)
    · cases hsc : input.scope with
      | none => simp
      | some sc => simpa using h4 sc hsc
    · by_cases hne : input.categories = []
      · exact Or.inl hne
      · exact Or.inr (h5 hne)
    · rcases h6 with h6 | h6 | h6
      · exact Or.inl (Or.inl h6)
      · exact Or.inl (Or.inr h6)
      · exact Or.inr ⟨h6.1, h6.2⟩
    · obtain ⟨v, hv, _⟩ := h7
      exact ⟨v, hv⟩
    · exact (embedding_cond_iff _ _ _ _).mpr h7

end Alexandria

namespace Alexandria

/-- A degenerate cosine-distance operator for concrete examples: every pair
of vectors is at distance 0 (similarity 1). -/
def searchDist0 : Vec → Vec → ℚ := fun _ _ => 0

def ePrivSearch : KnowledgeEntry :=
  { id := "k3", content := "c", summary := none, sourceAgent := "alice",
    category := "discovery", scope := ScopePrivate, sharedWith := [],
    tags := [], embedding := some [1], sourceEventID := none, confidence := 1,
    relevanceDecay := DecayNone, expiresAt := none, supersededBy := none,
    createdAt := 0, updatedAt := 0, deletedAt := none }

def inputWarrenSearch : SearchInput :=
  { queryEmbedding := [1], limit := 10, scope := none, categories := [],
    agentID := "warren", minRelevance := 1, includeExpired := false }

/-- C5 counterexample: a private entry owned by `alice`, non-deleted, not
superseded, unexpired, with an embedding at similarity 1 ≥ the floor, is
visible to the admin identity `warren` under the spec's ACL predicate
(`canAccess`), yet `Search` as `warren` returns nothing: `Search`'s SQL
visibility disjunct lacks the admin override (and the `*` wildcard). -/
theorem knowledgeSearch_admin_counterexample :
    canAccess ePrivSearch "warren" = true ∧
    ePrivSearch.deletedAt = none ∧
    ePrivSearch.supersededBy = none ∧
    ePrivSearch.expiresAt = none ∧
    (∃ v, ePrivSearch.embedding = some v ∧
      effMinSim inputWarrenSearch ≤
        1 - searchDist0 inputWarrenSearch.queryEmbedding v) ∧
    KnowledgeStore.search searchDist0 [ePrivSearch] inputWarrenSearch 0 = [] := by
  refine ⟨by decide, rfl, rfl, rfl, ⟨[1], rfl, by norm_num [effMinSim, inputWarrenSearch, searchDist0]⟩, ?_⟩
  simp [KnowledgeStore.search, KnowledgeStore.searchRows, searchWhere,
    listACL, ePrivSearch, inputWarrenSearch, ScopePublic, ScopePrivate,
    ScopeShared]

def ePubSearch : KnowledgeEntry :=
  { id := "k4", content := "c", summary := none, sourceAgent := "alice",
    category := "discovery", scope := ScopePublic, sharedWith := [],
    tags := [], embedding := some [1], sourceEventID := none, confidence := 1,
    relevanceDecay := DecayNone, expiresAt := none, supersededBy := none,
    createdAt := 0, updatedAt := 0, deletedAt := none }

def inputBobSearch : SearchInput :=
  { queryEmbedding := [1], limit := 10, scope := none, categories := [],
    agentID := "bob", minRelevance := 1, includeExpired := false }

/-- C5 witness: the amended theorem applied to a one-entry public table
searched by an unrelated agent `bob`. -/
theorem knowledgeSearch_mem_witness :
    ePubSearch ∈
      (KnowledgeStore.search searchDist0 [ePubSearch] inputBobSearch 0).map
        Prod.fst := by
  apply (knowledgeSearch_characterisation searchDist0 [ePubSearch]
      inputBobSearch 0).2.2.2.2
    (le_trans (List.length_filter_le _ _)
      (by norm_num [effSearchLimit, inputBobSearch]))
    ePubSearch
  refine ⟨List.mem_singleton.mpr rfl, rfl, rfl, Or.inr ?_, ?_, ?_,
    Or.inl rfl, ⟨[1], rfl, ?_⟩⟩
  · intro t ht
    simp [ePubSearch] at ht
  · intro sc h
    simp [inputBobSearch] at h
  · intro h
    simp [inputBobSearch] at h
  · norm_num [effMinSim, inputBobSearch, searchDist0]

end Alexandria

namespace Alexandria

/-- A JSON value as far as `EntityText` inspects it: a string, or anything
else (numbers, booleans, nested objects), which the `v.(string)` type
assertion rejects. -/
inductive JVal where
  | str (s : String)
  | other
  deriving DecidableEq, Repr

/-- `CGEntity` from the context-graph store, with `Metadata` as the decoded
JSON object (an association list of unique keys, as a Go map). -/
structure CGEntity where
  id : String
  type : String
  key : String
  displayName : String
  summary : String
  metadata : List (String × JVal)
  createdAt : ℚ
  updatedAt : ℚ
  deletedAt : Option ℚ
  deriving DecidableEq, Repr

/-- `EntityText` from the semantic package.  Go ranges over the decoded
metadata map, whose iteration order is randomised; `keyOrder` is the order
that range yields, an arbitrary permutation of the map's keys. -/
def EntityText (e : CGEntity) (keyOrder : List String) : String :=
  let parts : List String := [e.type ++ ": " ++ e.displayName]
  let parts := if e.summary = "" then parts else parts ++ [e.summary]
  let parts :=
    if e.metadata.isEmpty then parts
    else parts ++ keyOrder.filterMap (fun k =>
      match e.metadata.lookup k with
      | some (JVal.str s) => if s = "" then none else some (k ++ ": " ++ s)
      | _ => none)
  String.intercalate ". " parts

def eMetaExample : CGEntity :=
  { id := "e9", type := "service", key := "svc:x", displayName := "x",
    summary := "", metadata := [("a", JVal.str "1"), ("b", JVal.str "2")],
    createdAt := 0, updatedAt := 0, deletedAt := none }

/-- C9: with two string-valued metadata entries, the embed text depends on
the map iteration order — both orders below are permutations of the
entity's metadata keys, i.e. orders Go's randomised map range can yield,
and they produce different strings (hence different SHA-256 text hashes),
so the builder is not deterministic for a fixed input. -/
theorem entityText_order_dependent :
    (["a", "b"] : List String).Perm ["b", "a"] ∧
    eMetaExample.metadata.map Prod.fst = ["a", "b"] ∧
    EntityText eMetaExample ["a", "b"] = "service: x. a: 1. b: 2" ∧
    EntityText eMetaExample ["b", "a"] = "service: x. b: 2. a: 1" ∧
    EntityText eMetaExample ["a", "b"] ≠ EntityText eMetaExample ["b", "a"] := by
  refine ⟨by decide, rfl, rfl, rfl, by decide⟩

end Alexandria

namespace Alexandria

/-- Row of `vault_aliases` (`store.Alias`). -/
structure Alias where
  id : String
  aliasType : String
  aliasValue : String
  canonicalID : String
  confidence : ℚ
  source : String
  reviewed : Bool
  createdAt : ℚ
  deriving DecidableEq, Repr

/-- Row of `vault_relationships` (`store.CGEdge`); `metadata` carries the
raw JSON bytes, opaque here. -/
structure CGEdge where
  id : String
  fromID : String
  toID : String
  type : String
  confidence : ℚ
  source : String
  validFrom : ℚ
  validTo : Option ℚ
  metadata : String
  createdAt : ℚ
  deriving DecidableEq, Repr

/-- Row of `vault_provenance` (`store.Provenance`). -/
structure Provenance where
  id : String
  targetID : String
  targetType : String
  sourceSystem : String
  sourceRef : String
  sourceIdempotencyKey : Option String
  snippet : String
  agentID : Option String
  createdAt : ℚ
  deriving DecidableEq, Repr

/-- Row of `vault_entity_embeddings`, restricted to the columns
`FindSimilarToEntity` reads. -/
structure EntityEmbedding where
  entityID : String
  embedding : Vec
  deriving DecidableEq, Repr

/-- The context-graph tables touched by the resolver and the semantic
scanner.  `edgeSeq` models the DB's id generator for inserted edge rows. -/
structure GraphState where
  entities : List CGEntity
  aliases : List Alias
  edges : List CGEdge
  provenance : List Provenance
  embeddings : List EntityEmbedding
  edgeSeq : Nat
  deriving DecidableEq, Repr

/-- `GetEntityTx`: `SELECT ... FROM vault_entities WHERE id = $1` — note the
absence of any `deleted_at` filter: tombstoned rows are returned too. -/
def getEntityTx (st : GraphState) (id : String) : Option CGEntity :=
  st.entities.find? (fun e => e.id == id)

/-- `RePointAliases`: `UPDATE vault_aliases SET canonical_id = toID WHERE
canonical_id = fromID`. -/
def rePointAliases (st : GraphState) (fromID toID : String) : GraphState :=
  { st with aliases := st.aliases.map (fun a =>
      if a.canonicalID == fromID then { a with canonicalID := toID } else a) }

/-- The per-row effect of `RePointEdges`' two `UPDATE` statements. -/
def repointEdge (fromID toID : String) (e : CGEdge) : CGEdge :=
  let e := if e.fromID == fromID then { e with fromID := toID } else e
  if e.toID == fromID then { e with toID := toID } else e

/-- `RePointEdges`: repoint sources, repoint targets, then
`DELETE FROM vault_relationships WHERE source_entity_id = target_entity_id`
— a global, unconditional delete of every self-edge in the table. -/
def rePointEdges (st : GraphState) (fromID toID : String) : GraphState :=
  let es := st.edges.map (fun e =>
    if e.fromID == fromID then { e with fromID := toID } else e)
  let es := es.map (fun e =>
    if e.toID == fromID then { e with toID := toID } else e)
  { st with edges := es.filter (fun e => !(e.fromID == e.toID)) }

/-- The row update of `SoftDeleteEntity`'s `UPDATE ... SET deleted_at =
now(), updated_at = now() WHERE id = $1 AND deleted_at IS NULL`. -/
def softDeleteApply (st : GraphState) (id : String) (now : ℚ) : GraphState :=
  { st with entities := st.entities.map (fun e =>
      if e.id == id && e.deletedAt.isNone then
        { e with deletedAt := some now, updatedAt := now } else e) }

/-- `SoftDeleteEntity`: the update above; zero rows affected is an error. -/
def softDeleteEntity (st : GraphState) (id : String) (now : ℚ) :
    Except String GraphState :=
  if st.entities.any (fun e => e.id == id && e.deletedAt.isNone) then
    .ok (softDeleteApply st id now)
  else .error ("entity " ++ id ++ " not found or already deleted")

/-- The resolver's `touch survivor` statement:
`UPDATE vault_entities SET updated_at = now() WHERE id = $1`. -/
def touchEntity (st : GraphState) (id : String) (now : ℚ) : GraphState :=
  { st with entities := st.entities.map (fun e =>
      if e.id == id then { e with updatedAt := now } else e) }

/-- `CreateProvenance`: plain insert (the unique `source_idempotency_key`
is NULL for merge rows, so it never conflicts; `id` is DB-generated and
opaque to the resolver). -/
def createProvenance (st : GraphState) (p : Provenance) : GraphState :=
  { st with provenance := st.provenance ++ [p] }

/-- The provenance row `Resolver.Merge` records. -/
def mergeProvRow (survivorID mergedID approvedBy : String) (now : ℚ) :
    Provenance :=
  { id := "", targetID := survivorID, targetType := "entity",
    sourceSystem := "identity-resolver",
    sourceRef := "merge:" ++ mergedID ++ "→" ++ survivorID,
    sourceIdempotencyKey := none,
    snippet := "Merged by " ++ approvedBy, agentID := none, createdAt := now }

/-- `Resolver.Merge` from `resolver.go`: guard, fetch both entities,
repoint aliases and edges, soft-delete the merged entity, touch the
survivor, record provenance. -/
def Resolver.merge (st : GraphState) (survivorID mergedID approvedBy : String)
    (now : ℚ) : Except String GraphState :=
  if survivorID == mergedID then .error "cannot merge entity with itself"
  else
    match getEntityTx st survivorID with
    | none => .error "survivor: no rows in result set"
    | some _ =>
      match getEntityTx st mergedID with
      | none => .error "merged: no rows in result set"
      | some _ =>
        let st1 := rePointAliases st mergedID survivorID
        let st2 := rePointEdges st1 mergedID survivorID
        match softDeleteEntity st2 mergedID now with
        | .error e => .error e
        | .ok st3 =>
          let st4 := touchEntity st3 survivorID now
          .ok (createProvenance st4 (mergeProvRow survivorID mergedID approvedBy now))

/-- `WithTx` around `Resolver.Merge`: on any error the transaction rolls
back, leaving the pre-state; the boolean reports commit/rollback. -/
def Resolver.mergeTx (st : GraphState)
    (survivorID mergedID approvedBy : String) (now : ℚ) : GraphState × Bool :=
  match Resolver.merge st survivorID mergedID approvedBy now with
  | .ok st' => (st', true)
  | .error _ => (st, false)

lemma repointEdge_self {fromID toID : String} {e : CGEdge}
    (h : e.fromID = e.toID) :
    (repointEdge fromID toID e).fromID = (repointEdge fromID toID e).toID := by
  unfold repointEdge
  by_cases hf : e.fromID = fromID
  · have ht : e.toID = fromID := by rw [← h]; exact hf
    simp [hf, ht]
  · have ht : ¬ e.toID = fromID := by rw [← h]; exact hf
    simp [hf, ht, h]

lemma rePointEdges_edges_eq (st : GraphState) (fromID toID : String) :
    (rePointEdges st fromID toID).edges =
      (st.edges.map (repointEdge fromID toID)).filter
        (fun e => !(e.fromID == e.toID)) := by
  simp only [rePointEdges, List.map_map]
  rfl

/-- C10: `RePointEdges(from, to)`'s final `DELETE` has no `WHERE` beyond
`source = target`: afterwards no edge of the whole table is a self-edge,
and every prior self-edge — active or not, incident on `from`/`to` or on
unrelated entities — is gone (its repointed row is not in the table; for a
self-edge not incident on `from` the repointed row is the row itself). -/
theorem rePointEdges_deletes_every_self_edge (st : GraphState)
    (fromID toID : String) :
    (∀ e ∈ (rePointEdges st fromID toID).edges, e.fromID ≠ e.toID) ∧
    (∀ e ∈ st.edges, e.fromID = e.toID →
      repointEdge fromID toID e ∉ (rePointEdges st fromID toID).edges) ∧
    (∀ e ∈ st.edges, e.fromID = e.toID → e.fromID ≠ fromID →
      e ∉ (rePointEdges st fromID toID).edges) := by
  have h1 : ∀ e ∈ (rePointEdges st fromID toID).edges, e.fromID ≠ e.toID := by
    intro e he
    rw [rePointEdges_edges_eq] at he
    have := (List.mem_filter.mp he).2
    simpa using this
  refine ⟨h1, ?_, ?_⟩
  · intro e _ hself hmem
    exact h1 _ hmem (repointEdge_self hself)
  · intro e _ hself _ hmem'
    exact h1 e hmem' hself

end Alexandria

namespace Alexandria

/-- The state a successful `Resolver.Merge` commits: the composition of its
five mutation steps. -/
def mergeApply (st : GraphState) (survivorID mergedID approvedBy : String)
    (now : ℚ) : GraphState :=
  createProvenance
    (touchEntity
      (softDeleteApply (rePointEdges (rePointAliases st mergedID survivorID)
        mergedID survivorID) mergedID now)
      survivorID now)
    (mergeProvRow survivorID mergedID approvedBy now)

lemma merge_eq (st : GraphState) (a b approvedBy : String) (now : ℚ) :
    Resolver.merge st a b approvedBy now =
      if a = b then .error "cannot merge entity with itself"
      else
        match getEntityTx st a with
        | none => .error "survivor: no rows in result set"
        | some _ =>
          match getEntityTx st b with
          | none => .error "merged: no rows in result set"
          | some _ =>
            if st.entities.any (fun e => e.id == b && e.deletedAt.isNone) then
              .ok (mergeApply st a b approvedBy now)
            else .error ("entity " ++ b ++ " not found or already deleted") := by
  unfold Resolver.merge softDeleteEntity mergeApply
  by_cases hab : a = b
  · simp [hab]
  · simp only [beq_iff_eq, if_neg hab]
    cases getEntityTx st a with
    | none => rfl
    | some es =>
      cases getEntityTx st b with
      | none => rfl
      | some em =>
        by_cases hany :
            (st.entities.any fun e => e.id == b && e.deletedAt.isNone) = true
        · simp [rePointEdges, rePointAliases, hany]
        · simp [rePointEdges, rePointAliases, hany]

lemma merge_ok_struct {st st' : GraphState} {a b approvedBy : String}
    {now : ℚ} (h : Resolver.merge st a b approvedBy now = .ok st') :
    a ≠ b ∧
    st.entities.any (fun e => e.id == b && e.deletedAt.isNone) = true ∧
    st' = mergeApply st a b approvedBy now := by
  rw [merge_eq] at h
  by_cases hab : a = b
  · rw [if_pos hab] at h; exact absurd h (by simp)
  · rw [if_neg hab] at h
    cases hs : getEntityTx st a with
    | none => rw [hs] at h; exact absurd h (by simp)
    | some es =>
      rw [hs] at h
      cases hm : getEntityTx st b with
      | none => rw [hm] at h; exact absurd h (by simp)
      | some em =>
        rw [hm] at h
        by_cases hany :
            (st.entities.any fun e => e.id == b && e.deletedAt.isNone) = true
        · rw [if_pos hany] at h
          simp only [Except.ok.injEq] at h
          exact ⟨hab, hany, h.symm⟩
        · rw [if_neg hany] at h; exact absurd h (by simp)

lemma not_error_ok {msg : String} :
    ¬ ∃ st' : GraphState,
      (Except.error msg : Except String GraphState) = Except.ok st' := by
  rintro ⟨_, h⟩
  cases h

lemma merge_isOk_iff {st : GraphState} {a b approvedBy : String} {now : ℚ} :
    (∃ st', Resolver.merge st a b approvedBy now = .ok st') ↔
      (a ≠ b ∧ (∃ e ∈ st.entities, e.id = a) ∧
        (∃ e ∈ st.entities, e.id = b ∧ e.deletedAt = none)) := by
  rw [merge_eq]
  by_cases hab : a = b
  · rw [if_pos hab]
    simp [hab]
  · rw [if_neg hab]
    cases hs : getEntityTx st a with
    | none =>
      unfold getEntityTx at hs
      rw [List.find?_eq_none] at hs
      simp only [beq_iff_eq] at hs
      constructor
      · intro h; exact absurd h not_error_ok
      · rintro ⟨-, ⟨e, he, hid⟩, -⟩
        exact absurd hid (hs e he)
    | some es =>
      have hsex : ∃ e ∈ st.entities, e.id = a := by
        have h1 := List.find?_some hs
        have h2 := List.mem_of_find?_eq_some hs
        exact ⟨es, h2, by simpa using h1⟩
      cases hm : getEntityTx st b with
      | none =>
        unfold getEntityTx at hm
        rw [List.find?_eq_none] at hm
        simp only [beq_iff_eq] at hm
        constructor
        · intro h; exact absurd h not_error_ok
        · rintro ⟨-, -, ⟨e, he, hid, -⟩⟩
          exact absurd hid (hm e he)
      | some em =>
        by_cases hany :
            (st.entities.any fun e => e.id == b && e.deletedAt.isNone) = true
        · rw [if_pos hany]
          rw [List.any_eq_true] at hany
          obtain ⟨e, he, hpe⟩ := hany
          simp only [Bool.and_eq_true, beq_iff_eq,
            Option.isNone_iff_eq_none] at hpe
          simp only [Except.ok.injEq, exists_eq', true_iff]
          exact ⟨hab, hsex, ⟨e, he, hpe.1, hpe.2⟩⟩
        · rw [if_neg hany]
          constructor
          · intro h; exact absurd h not_error_ok
          · rintro ⟨-, -, ⟨e, he, hid, hdel⟩⟩
            exact absurd (List.any_eq_true.mpr ⟨e, he, by simp [hid, hdel]⟩) hany

/-- C2 (amended): the merge transaction commits if and only if survivor and
merged ids differ, the survivor id has a row (live or tombstoned — the
fetch does not check liveness), and the merged id has a live row; whenever
it aborts, the transaction rolls back and the state is unchanged.  A
soft-deleted survivor with a live merged entity does NOT abort. -/
theorem merge_precondition_characterisation (st : GraphState)
    (a b approvedBy : String) (now : ℚ) :
    ((Resolver.mergeTx st a b approvedBy now).2 = true ↔
      (a ≠ b ∧ (∃ e ∈ st.entities, e.id = a) ∧
        (∃ e ∈ st.entities, e.id = b ∧ e.deletedAt = none))) ∧
    ((Resolver.mergeTx st a b approvedBy now).2 = false →
      (Resolver.mergeTx st a b approvedBy now).1 = st) := by
  constructor
  · rw [← merge_isOk_iff]
    unfold Resolver.mergeTx
    cases h : Resolver.merge st a b approvedBy now with
    | ok st' => simp [h]
    | error e => simp [h]
  · unfold Resolver.mergeTx
    cases Resolver.merge st a b approvedBy now <;> simp

end Alexandria

namespace Alexandria

def entA : CGEntity :=
  { id := "a", type := "person", key := "e:a", displayName := "A",
    summary := "", metadata := [], createdAt := 0, updatedAt := 0,
    deletedAt := some 1 }

def entB : CGEntity :=
  { id := "b", type := "person", key := "e:b", displayName := "B",
    summary := "", metadata := [], createdAt := 0, updatedAt := 0,
    deletedAt := none }

def stMergeCx : GraphState :=
  { entities := [entA, entB], aliases := [], edges := [], provenance := [],
    embeddings := [], edgeSeq := 0 }

/-- C2 counterexample: entity `a` is soft-deleted and `b` is live, yet
`Merge(a, b)` commits and mutates the state (b gets tombstoned, provenance
appended) instead of aborting: `GetEntityTx` fetches tombstoned rows, so a
dead survivor passes the existence check. -/
theorem merge_deleted_survivor_counterexample :
    (getEntityTx stMergeCx "a").map CGEntity.deletedAt = some (some 1) ∧
    (Resolver.mergeTx stMergeCx "a" "b" "tester" 5).2 = true ∧
    (Resolver.mergeTx stMergeCx "a" "b" "tester" 5).1 ≠ stMergeCx := by
  refine ⟨rfl, rfl, by decide⟩

def entALive : CGEntity :=
  { id := "a", type := "person", key := "e:a", displayName := "A",
    summary := "", metadata := [], createdAt := 0, updatedAt := 0,
    deletedAt := none }

def stMergeOk : GraphState :=
  { entities := [entALive, entB], aliases := [], edges := [],
    provenance := [], embeddings := [], edgeSeq := 0 }

/-- C2 witness: the amended characterisation applied to two live entities. -/
theorem merge_precondition_witness :
    (Resolver.mergeTx stMergeOk "a" "b" "tester" 5).2 = true :=
  (merge_precondition_characterisation stMergeOk "a" "b" "tester" 5).1.mpr
    ⟨by decide, ⟨entALive, by decide, rfl⟩, ⟨entB, by decide, rfl, rfl⟩⟩

def edgeSelfC : CGEdge :=
  { id := "r1", fromID := "c", toID := "c", type := "owns", confidence := 1,
    source := "api", validFrom := 0, validTo := some 1, metadata := "",
    createdAt := 0 }

def stSelfEdge : GraphState :=
  { entities := [], aliases := [], edges := [edgeSelfC], provenance := [],
    embeddings := [], edgeSeq := 0 }

/-- C10 witness: an already-inactive self-edge on entity `c`, unrelated to
the re-pointed pair `(a, b)`, is removed by `RePointEdges("a", "b")`. -/
theorem rePointEdges_unrelated_witness :
    edgeSelfC ∉ (rePointEdges stSelfEdge "a" "b").edges :=
  (rePointEdges_deletes_every_self_edge stSelfEdge "a" "b").2.2 edgeSelfC
    (by decide) rfl (by decide)

lemma repointEdge_id (b a : String) (e : CGEdge) :
    (repointEdge b a e).id = e.id := by
  unfold repointEdge
  by_cases hf : e.fromID = b <;> by_cases ht : e.toID = b <;> simp [hf, ht]

lemma repointEdge_from_of_from_eq {b a : String} {e : CGEdge}
    (h : e.fromID = b) : (repointEdge b a e).fromID = a := by
  unfold repointEdge
  by_cases ht : e.toID = b <;> simp [h, ht]

lemma repointEdge_to_of_to_eq {b a : String} {e : CGEdge}
    (h : e.toID = b) : (repointEdge b a e).toID = a := by
  unfold repointEdge
  by_cases hf : e.fromID = b <;> simp [h, hf]

lemma repointEdge_from_ne_b {b a : String} {e : CGEdge} (hab : a ≠ b) :
    (repointEdge b a e).fromID ≠ b := by
  unfold repointEdge
  by_cases hf : e.fromID = b <;> by_cases ht : e.toID = b <;>
    simp [hf, ht, hab]

lemma repointEdge_to_ne_b {b a : String} {e : CGEdge} (hab : a ≠ b) :
    (repointEdge b a e).toID ≠ b := by
  unfold repointEdge
  by_cases hf : e.fromID = b <;> by_cases ht : e.toID = b <;>
    simp [hf, ht, hab]

lemma mergeApply_aliases (st : GraphState) (a b approvedBy : String)
    (now : ℚ) :
    (mergeApply st a b approvedBy now).aliases =
      st.aliases.map (fun al =>
        if al.canonicalID == b then { al with canonicalID := a } else al) :=
  rfl

lemma mergeApply_edges (st : GraphState) (a b approvedBy : String)
    (now : ℚ) :
    (mergeApply st a b approvedBy now).edges =
      (st.edges.map (repointEdge b a)).filter
        (fun e => !(e.fromID == e.toID)) := by
  show (rePointEdges (rePointAliases st b a) b a).edges = _
  rw [rePointEdges_edges_eq]
  rfl

lemma mergeApply_entities (st : GraphState) (a b approvedBy : String)
    (now : ℚ) :
    (mergeApply st a b approvedBy now).entities =
      (st.entities.map (fun e =>
        if e.id == b && e.deletedAt.isNone then
          { e with deletedAt := some now, updatedAt := now } else e)).map
        (fun e => if e.id == a then { e with updatedAt := now } else e) :=
  rfl

lemma mergeApply_provenance (st : GraphState) (a b approvedBy : String)
    (now : ℚ) :
    (mergeApply st a b approvedBy now).provenance =
      st.provenance ++ [mergeProvRow a b approvedBy now] :=
  rfl

end Alexandria

namespace Alexandria

lemma sdUpd_id (b : String) (now : ℚ) (e : CGEntity) :
    ((fun e : CGEntity => if e.id == b && e.deletedAt.isNone then
      { e with deletedAt := some now, updatedAt := now } else e) e).id =
      e.id := by
  by_cases h : (e.id == b && e.deletedAt.isNone) = true <;> simp [h]

lemma touchUpd_id (a : String) (now : ℚ) (e : CGEntity) :
    ((fun e : CGEntity => if e.id == a then { e with updatedAt := now }
      else e) e).id = e.id := by
  by_cases h : (e.id == a) = true <;> simp [h]

/-- C3: after a successful `Merge(a, b)` (with unique entity ids and `now`
later than the survivor's `updated_at`): every alias previously pointing
at `b` points at `a` and none points at `b`; every previously active edge
incident on `b` has its repointed row incident on `a` in the table, or it
became a self-edge and is gone; no edge is incident on `b`; `b` is
soft-deleted at `now`; the survivor's `updated_at` strictly increased;
provenance is the old list plus exactly one row targeting `a` from
`identity-resolver`; and no edge has `from = to`. -/
theorem merge_conservation (st st' : GraphState) (a b approvedBy : String)
    (now : ℚ) (hmerge : Resolver.merge st a b approvedBy now = .ok st')
    (hnodup : (st.entities.map CGEntity.id).Nodup)
    (hfresh : ∀ e ∈ st.entities, e.id = a → e.updatedAt < now) :
    (∀ al ∈ st.aliases, al.canonicalID = b →
      { al with canonicalID := a } ∈ st'.aliases) ∧
    (∀ al ∈ st'.aliases, al.canonicalID ≠ b) ∧
    (∀ e ∈ st.edges, e.validTo = none → (e.fromID = b ∨ e.toID = b) →
      (((repointEdge b a e).fromID = (repointEdge b a e).toID ∧
          repointEdge b a e ∉ st'.edges) ∨
        (repointEdge b a e ∈ st'.edges ∧
          ((repointEdge b a e).fromID = a ∨ (repointEdge b a e).toID = a)))) ∧
    (∀ e ∈ st'.edges, e.fromID ≠ b ∧ e.toID ≠ b) ∧
    (∀ e ∈ st'.entities, e.id = b → e.deletedAt = some now) ∧
    (∀ e ∈ st.entities, e.id = a → ∀ e' ∈ st'.entities, e'.id = a →
      e.updatedAt < e'.updatedAt) ∧
    st'.provenance = st.provenance ++ [mergeProvRow a b approvedBy now] ∧
    (mergeProvRow a b approvedBy now).targetID = a ∧
    (mergeProvRow a b approvedBy now).sourceSystem = "identity-resolver" ∧
    (∀ e ∈ st'.edges, e.fromID ≠ e.toID) := by
  obtain ⟨hab, hany, hst'⟩ := merge_ok_struct hmerge
  subst hst'
  have hedges :
      ∀ e' ∈ (mergeApply st a b approvedBy now).edges, e'.fromID ≠ e'.toID := by
    intro e' he'
    rw [mergeApply_edges] at he'
    have := (List.mem_filter.mp he').2
    simpa using this
  refine ⟨?_, ?_, ?_, ?_, ?_, ?_, mergeApply_provenance st a b approvedBy now,
    rfl, rfl, hedges⟩
  · intro al hal hcb
    rw [mergeApply_aliases]
    refine List.mem_map.mpr ⟨al, hal, ?_⟩
    simp [hcb]
  · intro al' hmem
    rw [mergeApply_aliases] at hmem
    obtain ⟨al, _, rfl⟩ := List.mem_map.mp hmem
    by_cases h : al.canonicalID = b
    · simp [h]
      exact hab
    · simp [h]
  · intro e hmem _ hinc
    by_cases hself : (repointEdge b a e).fromID = (repointEdge b a e).toID
    · refine Or.inl ⟨hself, fun hmem' => hedges _ hmem' hself⟩
    · refine Or.inr ⟨?_, ?_⟩
      · rw [mergeApply_edges]
        refine List.mem_filter.mpr ⟨List.mem_map_of_mem _ hmem, ?_⟩
        simpa using hself
      · rcases hinc with hf | ht
        · exact Or.inl (repointEdge_from_of_from_eq hf)
        · exact Or.inr (repointEdge_to_of_to_eq ht)
  · intro e' hmem
    rw [mergeApply_edges] at hmem
    obtain ⟨e, _, rfl⟩ := List.mem_map.mp (List.mem_filter.mp hmem).1
    exact ⟨repointEdge_from_ne_b hab, repointEdge_to_ne_b hab⟩
  · intro e' hmem hid
    rw [mergeApply_entities] at hmem
    obtain ⟨e1, hmem1, rfl⟩ := List.mem_map.mp hmem
    obtain ⟨e0, hmem0, rfl⟩ := List.mem_map.mp hmem1
    have hid0 : e0.id = b := by
      rw [← hid]
      rw [touchUpd_id, sdUpd_id]
    rw [List.any_eq_true] at hany
    obtain ⟨eb, hmemb, hpb⟩ := hany
    simp only [Bool.and_eq_true, beq_iff_eq, Option.isNone_iff_eq_none] at hpb
    have he0b : e0 = eb :=
      List.inj_on_of_nodup_map hnodup hmem0 hmemb (by rw [hid0, hpb.1])
    subst he0b
    have hcond : (e0.id == b && e0.deletedAt.isNone) = true := by
      simp [hid0, hpb.2]
    simp only [hcond, if_true]
    have : ¬ (b == a) = true := by simpa using fun h => hab h.symm
    simp [hid0, this]
  · intro e hmeme hide e' hmem' hid'
    rw [mergeApply_entities] at hmem'
    obtain ⟨e1, hmem1, rfl⟩ := List.mem_map.mp hmem'
    obtain ⟨e0, _, rfl⟩ := List.mem_map.mp hmem1
    have hid1 : e0.id = a := by
      rw [← hid']
      rw [touchUpd_id, sdUpd_id]
    have hcond1 : ((if e0.id == b && e0.deletedAt.isNone then
        { e0 with deletedAt := some now, updatedAt := now } else e0).id == a)
        = true := by
      rw [sdUpd_id]
      simp [hid1]
    simp only [hcond1, if_true]
    exact hfresh e hmeme hide

end Alexandria

namespace Alexandria

def aliasB : Alias :=
  { id := "al1", aliasType := "email", aliasValue := "b@x",
    canonicalID := "b", confidence := 1, source := "api", reviewed := false,
    createdAt := 0 }

def stC3 : GraphState :=
  { entities := [entALive, entB], aliases := [aliasB], edges := [],
    provenance := [], embeddings := [], edgeSeq := 0 }

/-- C3 witness: merge conservation applied to a concrete two-entity state;
exactly the one provenance row is appended. -/
theorem merge_conservation_witness :
    (mergeApply stC3 "a" "b" "tester" 5).provenance =
      stC3.provenance ++ [mergeProvRow "a" "b" "tester" 5] :=
  (merge_conservation stC3 (mergeApply stC3 "a" "b" "tester" 5) "a" "b"
    "tester" 5 rfl (by decide) (by decide)).2.2.2.2.2.2.1

/-- Row of `vault_secrets` (`store.Secret`), restricted to the columns the
rotation path touches plus the legacy ACL fields. -/
structure Secret where
  id : String
  name : String
  encryptedValue : String
  scope : List String
  agentID : Option String
  lastRotatedAt : Option ℚ
  deriving DecidableEq, Repr

/-- Row of `vault_secret_history` as inserted by `Rotate`. -/
structure SecretHistoryRow where
  secretID : String
  encryptedValue : String
  rotatedBy : String
  deriving DecidableEq, Repr

structure SecretsState where
  secrets : List Secret
  history : List SecretHistoryRow
  deriving DecidableEq, Repr

/-- The statements of `SecretStore.Rotate`'s transaction, used to inject a
transient failure at any point (`commit` models `tx.Commit` failing). -/
inductive RotateStep where
  | getCurrent
  | insertHistory
  | updateLive
  | commit
  deriving DecidableEq, Repr

/-- `SecretStore.Rotate` from `secrets.go`: inside one transaction, read
the current row, insert the old ciphertext into history, update the live
row.  `failAt` injects a DB failure at the corresponding statement. -/
def SecretStore.rotate (failAt : Option RotateStep) (st : SecretsState)
    (name newEncryptedValue rotatedBy : String) (now : ℚ) :
    Except String SecretsState :=
  if failAt = some RotateStep.getCurrent then .error "getting current secret"
  else
    match st.secrets.find? (fun s => s.name == name) with
    | none => .error "getting current secret: no rows in result set"
    | some s =>
      if failAt = some RotateStep.insertHistory then .error "saving history"
      else
        let st1 : SecretsState :=
          { st with history :=
              st.history ++ [⟨s.id, s.encryptedValue, rotatedBy⟩] }
        if failAt = some RotateStep.updateLive then .error "updating secret"
        else
          let st2 : SecretsState :=
            { st1 with secrets := st1.secrets.map (fun r =>
                if r.name == name then
                  { r with
                    encryptedValue := newEncryptedValue
                    lastRotatedAt := some now }
                else r) }
          if failAt = some RotateStep.commit then .error "commit failed"
          else .ok st2

/-- `Begin`/`defer Rollback`/`Commit` around `Rotate`: an error leaves the
pre-state. -/
def SecretStore.rotateTx (failAt : Option RotateStep) (st : SecretsState)
    (name newEncryptedValue rotatedBy : String) (now : ℚ) :
    SecretsState × Bool :=
  match SecretStore.rotate failAt st name newEncryptedValue rotatedBy now with
  | .ok st' => (st', true)
  | .error _ => (st, false)

lemma find?_map_of_name_preserved (u : Secret → Secret)
    (hu : ∀ r, (u r).name = r.name) (name : String) :
    ∀ (l : List Secret) (s : Secret),
      l.find? (fun r => r.name == name) = some s →
      (l.map u).find? (fun r => r.name == name) = some (u s) := by
  intro l
  induction l with
  | nil => intro s h; cases h
  | cons x xs ih =>
    intro s h
    by_cases hx : (x.name == name) = true
    · rw [@List.find?_cons_of_pos Secret (fun r => r.name == name) x xs hx]
        at h
      rw [List.map_cons,
        @List.find?_cons_of_pos Secret (fun r => r.name == name) (u x)
          (xs.map u) (by show ((u x).name == name) = true; rw [hu x]; exact hx)]
      cases h
      rfl
    · rw [@List.find?_cons_of_neg Secret (fun r => r.name == name) x xs hx]
        at h
      rw [List.map_cons,
        @List.find?_cons_of_neg Secret (fun r => r.name == name) (u x)
          (xs.map u) (by show ¬ ((u x).name == name) = true; rw [hu x]; exact hx)]
      exact ih s h

/-- The state a committed `Rotate` leaves, given the row it read. -/
def rotateApply (st : SecretsState) (s : Secret)
    (name newEncryptedValue rotatedBy : String) (now : ℚ) : SecretsState :=
  { secrets := st.secrets.map (fun r =>
      if r.name == name then
        { r with
          encryptedValue := newEncryptedValue
          lastRotatedAt := some now }
      else r)
    history := st.history ++ [⟨s.id, s.encryptedValue, rotatedBy⟩] }

lemma rotate_ok_iff {failAt : Option RotateStep} {st st' : SecretsState}
    {name newVal rotatedBy : String} {now : ℚ} :
    SecretStore.rotate failAt st name newVal rotatedBy now = .ok st' ↔
      (failAt = none ∧
        ∃ s, st.secrets.find? (fun r => r.name == name) = some s ∧
          st' = rotateApply st s name newVal rotatedBy now) := by
  unfold SecretStore.rotate rotateApply
  cases failAt with
  | none =>
    cases hs : st.secrets.find? (fun s => s.name == name) with
    | none => simp
    | some s =>
      simp
      exact eq_comm
  | some step =>
    cases hs : st.secrets.find? (fun s => s.name == name) with
    | none => cases step <;> simp
    | some s => cases step <;> simp

/-- C4: when the rotation transaction commits, exactly one history row —
holding the previous ciphertext and `rotatedBy` — is appended, and the live
row's ciphertext becomes the new value with `last_rotated_at` set; when any
statement fails (the name not existing included), the transaction rolls
back and neither the history nor the live row changes. -/
theorem rotate_atomicity (failAt : Option RotateStep) (st : SecretsState)
    (name newVal rotatedBy : String) (now : ℚ) :
    ((SecretStore.rotateTx failAt st name newVal rotatedBy now).2 = true →
      ∃ s ∈ st.secrets, s.name = name ∧
        st.secrets.find? (fun r => r.name == name) = some s ∧
        (SecretStore.rotateTx failAt st name newVal rotatedBy now).1.history =
          st.history ++ [⟨s.id, s.encryptedValue, rotatedBy⟩] ∧
        (SecretStore.rotateTx failAt st name newVal rotatedBy
            now).1.secrets.find? (fun r => r.name == name) =
          some { s with
            encryptedValue := newVal
            lastRotatedAt := some now }) ∧
    ((SecretStore.rotateTx failAt st name newVal rotatedBy now).2 = false →
      (SecretStore.rotateTx failAt st name newVal rotatedBy now).1 = st) := by
  constructor
  · intro hok
    have hrot : ∃ st'',
        SecretStore.rotate failAt st name newVal rotatedBy now = .ok st'' := by
      revert hok
      unfold SecretStore.rotateTx
      cases SecretStore.rotate failAt st name newVal rotatedBy now with
      | ok st'' => intro _; exact ⟨st'', rfl⟩
      | error e => intro hok; exact absurd hok (by simp)
    obtain ⟨st'', hrot⟩ := hrot
    obtain ⟨-, s, hs, hst'⟩ := rotate_ok_iff.mp hrot
    have htx : (SecretStore.rotateTx failAt st name newVal rotatedBy now).1 =
        rotateApply st s name newVal rotatedBy now := by
      unfold SecretStore.rotateTx
      rw [hrot, hst']
    have hname : s.name = name := by
      have := List.find?_some hs
      simpa using this
    refine ⟨s, List.mem_of_find?_eq_some hs, hname, hs, ?_, ?_⟩
    · rw [htx]
      rfl
    · rw [htx]
      show (rotateApply st s name newVal rotatedBy now).secrets.find?
        (fun r => r.name == name) = _
      unfold rotateApply
      have hmap := find?_map_of_name_preserved
        (fun r => if r.name == name then
          { r with
            encryptedValue := newVal
            lastRotatedAt := some now }
          else r)
        (fun r => by by_cases hr : (r.name == name) = true <;> simp [hr])
        name st.secrets s hs
      rw [hmap]
      have hcond : (s.name == name) = true := by simp [hname]
      simp only [hcond, if_true]
  · intro hfail
    revert hfail
    unfold SecretStore.rotateTx
    cases SecretStore.rotate failAt st name newVal rotatedBy now with
    | ok st'' => intro hfail; exact absurd hfail (by simp)
    | error e => intro _; rfl

def secK : Secret :=
  { id := "s1", name := "k", encryptedValue := "c1", scope := ["*"],
    agentID := some "a", lastRotatedAt := none }

def stSecrets : SecretsState := { secrets := [secK], history := [] }

/-- C4 witness: a successful rotation of the one-secret store appends the
old ciphertext to history. -/
theorem rotate_atomicity_witness :
    (SecretStore.rotateTx none stSecrets "k" "c2" "bob" 5).1.history =
      stSecrets.history ++ [⟨"s1", "c1", "bob"⟩] := by
  obtain ⟨s, hmem, -, -, hhist, -⟩ :=
    (rotate_atomicity none stSecrets "k" "c2" "bob" 5).1 rfl
  have hs : s = secK := by
    have : s ∈ [secK] := hmem
    simpa using this
  subst hs
  exact hhist

end Alexandria

namespace Alexandria

/-- `ResolveRequest` from `resolver.go`. -/
structure ResolveRequest where
  aliasType : String
  aliasValue : String
  source : String
  entityType : String
  displayName : String
  deriving DecidableEq, Repr

/-- `ResolveResult` from `resolver.go`. -/
structure ResolveResult where
  entityID : String
  aliasID : String
  outcome : String
  deriving DecidableEq, Repr

/-- `LookupAlias`: first row with matching `(alias_type, alias_value)`. -/
def lookupAlias (st : GraphState) (aliasType aliasValue : String) :
    Option Alias :=
  st.aliases.find? (fun a =>
    a.aliasType == aliasType && a.aliasValue == aliasValue)

/-- `CreateEntityTx`: insert, failing on the unique `key` constraint. -/
def createEntityTx (st : GraphState) (e : CGEntity) :
    Except String GraphState :=
  if st.entities.any (fun x => x.key == e.key) then
    .error "duplicate key value violates unique constraint"
  else .ok { st with entities := st.entities ++ [e] }

/-- `CreateAlias`: insert, failing on the unique `(alias_type, alias_value)`
constraint. -/
def createAlias (st : GraphState) (a : Alias) : Except String GraphState :=
  if st.aliases.any (fun x =>
      x.aliasType == a.aliasType && x.aliasValue == a.aliasValue) then
    .error "duplicate key value violates unique constraint"
  else .ok { st with aliases := st.aliases ++ [a] }

/-- The entity `Resolve` creates on a miss (`key = "<type>:<value>"`;
`id`, `created_at`, `updated_at` are DB-generated). -/
def resolveEntity (req : ResolveRequest) (newEntityID : String) (now : ℚ) :
    CGEntity :=
  { id := newEntityID, type := req.entityType,
    key := req.aliasType ++ ":" ++ req.aliasValue,
    displayName := req.displayName, summary := "", metadata := [],
    createdAt := now, updatedAt := now, deletedAt := none }

/-- The alias `Resolve` creates on a miss (confidence 1.0, unreviewed). -/
def resolveAlias (req : ResolveRequest) (newAliasID canonicalID : String)
    (now : ℚ) : Alias :=
  { id := newAliasID, aliasType := req.aliasType,
    aliasValue := req.aliasValue, canonicalID := canonicalID,
    confidence := 1, source := req.source, reviewed := false,
    createdAt := now }

/-- `Resolver.Resolve` from `resolver.go`: validate, look up the alias;
on a hit return matched/pending_review by stored confidence; on a miss
create entity and alias (outcome `created`), re-looking the alias up in
the same transaction if the insert loses a unique-constraint race. -/
def Resolver.resolve (st : GraphState) (req : ResolveRequest)
    (newEntityID newAliasID : String) (now : ℚ) :
    Except String (GraphState × ResolveResult) :=
  if req.aliasType = "" ∨ req.aliasValue = "" then
    .error "alias_type and alias_value are required"
  else if req.entityType = "" then .error "entity_type is required"
  else
    match lookupAlias st req.aliasType req.aliasValue with
    | some al =>
      .ok (st, { entityID := al.canonicalID
                 aliasID := al.id
                 outcome := if al.confidence ≥ 0.9 then "matched"
                   else "pending_review" })
    | none =>
      match createEntityTx st (resolveEntity req newEntityID now) with
      | .error e => .error ("create entity: " ++ e)
      | .ok st1 =>
        match createAlias st1 (resolveAlias req newAliasID newEntityID now) with
        | .error _ =>
          match lookupAlias st1 req.aliasType req.aliasValue with
          | none => .error "retry lookup"
          | some retryAlias =>
            .ok (st1, { entityID := retryAlias.canonicalID
                        aliasID := retryAlias.id
                        outcome := if retryAlias.confidence ≥ 0.9 then "matched"
                          else "pending_review" })
        | .ok st2 =>
          .ok (st2, { entityID := newEntityID
                      aliasID := newAliasID
                      outcome := "created" })

lemma lookupAlias_append_right {st : GraphState} {t v : String}
    {more : List Alias}
    (h : lookupAlias st t v = none) :
    (st.aliases ++ more).find? (fun a =>
      a.aliasType == t && a.aliasValue == v) =
      more.find? (fun a => a.aliasType == t && a.aliasValue == v) := by
  unfold lookupAlias at h
  rw [List.find?_append, h]
  rfl

end Alexandria

namespace Alexandria

/-- C7: if `Resolve(t, v, …)` succeeds, the same request resolved again
against the resulting state finds an alias (the stored one), returns the
same entity id, leaves the state unchanged (no new entity or alias), and
reports `matched` exactly when the stored confidence is ≥ 0.9 — in
particular a first call with outcome `created` stored confidence 1.0, so
the second call is `matched`. -/
theorem resolve_idempotent (st st1 : GraphState) (req : ResolveRequest)
    (e1 a1 e2 a2 : String) (n1 n2 : ℚ) (r1 : ResolveResult)
    (h1 : Resolver.resolve st req e1 a1 n1 = .ok (st1, r1)) :
    ∃ al, lookupAlias st1 req.aliasType req.aliasValue = some al ∧
      al.canonicalID = r1.entityID ∧
      (r1.outcome = "created" → al.confidence = 1) ∧
      Resolver.resolve st1 req e2 a2 n2 =
        .ok (st1, { entityID := al.canonicalID
                    aliasID := al.id
                    outcome := if al.confidence ≥ 0.9 then "matched"
                      else "pending_review" }) := by
  unfold Resolver.resolve at h1 ⊢
  by_cases hval : req.aliasType = "" ∨ req.aliasValue = ""
  · rw [if_pos hval] at h1; cases h1
  · rw [if_neg hval] at h1 ⊢
    by_cases hety : req.entityType = ""
    · rw [if_pos hety] at h1; cases h1
    · rw [if_neg hety] at h1 ⊢
      cases hl0 : lookupAlias st req.aliasType req.aliasValue with
      | some al0 =>
        rw [hl0] at h1
        simp only [Except.ok.injEq, Prod.mk.injEq] at h1
        obtain ⟨hst, hr⟩ := h1
        subst hst
        refine ⟨al0, hl0, ?_, ?_, ?_⟩
        · rw [← hr]
        · intro hout
          rw [← hr] at hout
          by_cases hc : al0.confidence ≥ 0.9 <;> simp [hc] at hout
        · rw [hl0]
      | none =>
        rw [hl0] at h1
        have hnone : ∀ x ∈ st.aliases,
            ¬ ((x.aliasType == req.aliasType &&
                x.aliasValue == req.aliasValue) = true) := by
          unfold lookupAlias at hl0
          exact List.find?_eq_none.mp hl0
        by_cases hkey : (st.entities.any fun x =>
            x.key == (resolveEntity req e1 n1).key) = true
        · rw [show createEntityTx st (resolveEntity req e1 n1) =
              .error "duplicate key value violates unique constraint" from by
            unfold createEntityTx; rw [if_pos hkey]] at h1
          cases h1
        · have hce : createEntityTx st (resolveEntity req e1 n1) =
              .ok { st with entities := st.entities ++ [resolveEntity req e1 n1] } := by
            unfold createEntityTx
            rw [if_neg hkey]
          rw [hce] at h1
          simp only [] at h1
          have hca : createAlias
              { st with entities := st.entities ++ [resolveEntity req e1 n1] }
              (resolveAlias req a1 e1 n1) =
              .ok { st with
                entities := st.entities ++ [resolveEntity req e1 n1]
                aliases := st.aliases ++ [resolveAlias req a1 e1 n1] } := by
            unfold createAlias
            rw [if_neg (fun hc => by
              obtain ⟨x, hx, hpx⟩ := List.any_eq_true.mp hc
              exact hnone x hx hpx)]
          rw [hca] at h1
          simp only [Except.ok.injEq, Prod.mk.injEq] at h1
          obtain ⟨hst, hr⟩ := h1
          refine ⟨resolveAlias req a1 e1 n1, ?_, ?_, fun _ => rfl, ?_⟩
          · rw [← hst]
            show ((st.aliases ++ [resolveAlias req a1 e1 n1]).find? (fun a =>
              a.aliasType == req.aliasType &&
                a.aliasValue == req.aliasValue)) = _
            rw [lookupAlias_append_right hl0]
            rw [List.find?_cons_of_pos _ (by simp [resolveAlias])]
          · rw [← hr]
            rfl
          · have hl1 : lookupAlias st1 req.aliasType req.aliasValue =
                some (resolveAlias req a1 e1 n1) := by
              rw [← hst]
              show ((st.aliases ++ [resolveAlias req a1 e1 n1]).find? (fun a =>
                a.aliasType == req.aliasType &&
                  a.aliasValue == req.aliasValue)) = _
              rw [lookupAlias_append_right hl0]
              rw [List.find?_cons_of_pos _ (by simp [resolveAlias])]
            rw [hl1]

end Alexandria

namespace Alexandria

def req1 : ResolveRequest :=
  { aliasType := "email", aliasValue := "a@x", source := "api",
    entityType := "person", displayName := "A" }

def st0 : GraphState :=
  { entities := [], aliases := [], edges := [], provenance := [],
    embeddings := [], edgeSeq := 0 }

def st1c : GraphState :=
  { entities := [resolveEntity req1 "e1" 0],
    aliases := [resolveAlias req1 "al1" "e1" 0], edges := [],
    provenance := [], embeddings := [], edgeSeq := 0 }

/-- C7 witness: resolving `(email, a@x)` on an empty store creates entity
`e1`; the theorem applied to that run shows the second call matches the
same entity with no state change. -/
theorem resolve_idempotent_witness :
    Resolver.resolve st1c req1 "e2" "al2" 7 =
      .ok (st1c, { entityID := "e1"
                   aliasID := "al1"
                   outcome := "matched" }) := by
  obtain ⟨al, hl, hcan, hconf, h2⟩ :=
    resolve_idempotent st0 st1c req1 "e1" "al1" "e2" "al2" 0 7
      ⟨"e1", "al1", "created"⟩ rfl
  have h0 : lookupAlias st1c req1.aliasType req1.aliasValue =
      some (resolveAlias req1 "al1" "e1" 0) := rfl
  rw [h0] at hl
  have hal : al = resolveAlias req1 "al1" "e1" 0 := (Option.some.inj hl).symm
  subst hal
  rw [h2]
  norm_num [resolveAlias]

end Alexandria

namespace Alexandria

/-- The `JOIN vault_entities ent ON ent.id = e2.entity_id AND ent.deleted_at
IS NULL` condition of `FindSimilarToEntity`. -/
def isLiveEntity (st : GraphState) (id : String) : Bool :=
  match st.entities.find? (fun e => e.id == id) with
  | some e => e.deletedAt.isNone
  | none => false

/-- `FindSimilarToEntity` from `supabase.go`: nearest other live entities by
embedding distance, threshold `distance < 1 - minSimilarity`, ordered by
distance, limited; similarity reported as `1 - distance`. -/
def findSimilarToEntity (dist : Vec → Vec → ℚ) (st : GraphState)
    (entityID : String) (limit : Int) (minSimilarity : ℚ) :
    List (String × ℚ) :=
  let maxDistance := 1 - minSimilarity
  match st.embeddings.find? (fun p => p.entityID == entityID) with
  | none => []
  | some e1 =>
    let rows := st.embeddings.filter (fun e2 =>
      e2.entityID != entityID && isLiveEntity st e2.entityID &&
        decide (dist e1.embedding e2.embedding < maxDistance))
    let sorted := rows.mergeSort (fun p q =>
      decide (dist e1.embedding p.embedding ≤ dist e1.embedding q.embedding))
    (sorted.take limit.toNat).map
      (fun p => (p.entityID, 1 - dist e1.embedding p.embedding))

/-- `canonicalOrder` from `similarity.go`: UUIDs in lexicographic order,
smaller first. -/
def canonicalOrder (a b : String) : String × String :=
  if a < b then (a, b) else (b, a)

/-- Whether a row is an active `semantic_similarity` edge (the partial
unique index's condition). -/
def activeSemEdge (e : CGEdge) : Bool :=
  e.type == "semantic_similarity" && e.validTo.isNone

/-- The `DO UPDATE SET confidence = EXCLUDED.confidence, source =
EXCLUDED.source` row update of `UpsertSemanticEdge`. -/
def semUpd (fromID toID : String) (confidence : ℚ) (e : CGEdge) : CGEdge :=
  if e.fromID == fromID && e.toID == toID && activeSemEdge e then
    { e with
      confidence := confidence
      source := "semantic-scanner" }
  else e

/-- The row `UpsertSemanticEdge` inserts (id DB-generated, metadata
`auto_generated`, `valid_to` NULL by default). -/
def semNewEdge (fromID toID : String) (confidence now : ℚ) (seq : Nat) :
    CGEdge :=
  { id := "sem-" ++ toString seq, fromID := fromID, toID := toID,
    type := "semantic_similarity", confidence := confidence,
    source := "semantic-scanner", validFrom := now, validTo := none,
    metadata := "\x7b\"auto_generated\":true\x7d", createdAt := now }

/-- `UpsertSemanticEdge` from `part_012`: insert an active
`semantic_similarity` edge, or on conflict with the partial unique index
update the existing row's confidence and source. -/
def upsertSemanticEdge (st : GraphState) (fromID toID : String)
    (confidence : ℚ) (now : ℚ) : GraphState :=
  if st.edges.any (fun e => e.fromID == fromID && e.toID == toID &&
      activeSemEdge e) then
    { st with edges := st.edges.map (semUpd fromID toID confidence) }
  else
    { st with
      edges := st.edges ++ [semNewEdge fromID toID confidence now st.edgeSeq]
      edgeSeq := st.edgeSeq + 1 }

/-- `ListEntitiesTx` from `part_015`: non-deleted entities, optional type
filter, ordered by `created_at DESC`. -/
def listEntitiesTx (st : GraphState) (entityType : String) :
    List CGEntity :=
  (st.entities.filter (fun e => e.deletedAt.isNone &&
    (entityType == "" || e.type == entityType))).mergeSort
    (fun a b => decide (b.createdAt ≤ a.createdAt))

/-- One `for _, s := range similar` iteration of `scanSimilarity`. -/
def scanPairStep (now : ℚ) (entID : String) (acc : GraphState)
    (s : String × ℚ) : GraphState :=
  let p := canonicalOrder entID s.1
  if p.1 ≠ entID then acc
  else upsertSemanticEdge acc p.1 p.2 s.2 now

/-- One `for _, entity := range entities` iteration of `scanSimilarity`. -/
def scanEntityStep (dist : Vec → Vec → ℚ) (edgeThreshold now : ℚ)
    (acc : GraphState) (ent : CGEntity) : GraphState :=
  if ent.deletedAt ≠ none then acc
  else (findSimilarToEntity dist acc ent.id 10 edgeThreshold).foldl
    (scanPairStep now ent.id) acc

/-- `Worker.scanSimilarity` from `similarity.go`: for every non-deleted
entity, upsert a canonical-direction semantic edge to each sufficiently
similar other entity, skipping pairs where this entity is not the
canonical `from`. -/
def Worker.scanSimilarity (dist : Vec → Vec → ℚ) (st : GraphState)
    (edgeThreshold now : ℚ) : GraphState :=
  (listEntitiesTx st "").foldl (scanEntityStep dist edgeThreshold now) st

/-- The scanner's target invariant: every active semantic edge runs from
the lexicographically smaller id to the larger, and no two rows of the
table are active semantic edges over the same ordered pair. -/
def semCanonical (st : GraphState) : Prop :=
  (∀ e ∈ st.edges, activeSemEdge e = true → e.fromID < e.toID) ∧
  (st.edges.filter activeSemEdge).Pairwise
    (fun e1 e2 => ¬(e1.fromID = e2.fromID ∧ e1.toID = e2.toID))

/-- The table holds an active semantic edge over the ordered pair. -/
def hasActiveSem (st : GraphState) (f t : String) : Prop :=
  ∃ e ∈ st.edges, activeSemEdge e = true ∧ e.fromID = f ∧ e.toID = t

end Alexandria

namespace Alexandria

lemma semUpd_fromID (f t : String) (c : ℚ) (e : CGEdge) :
    (semUpd f t c e).fromID = e.fromID := by
  unfold semUpd; split <;> rfl

lemma semUpd_toID (f t : String) (c : ℚ) (e : CGEdge) :
    (semUpd f t c e).toID = e.toID := by
  unfold semUpd; split <;> rfl

lemma semUpd_activeSem (f t : String) (c : ℚ) (e : CGEdge) :
    activeSemEdge (semUpd f t c e) = activeSemEdge e := by
  unfold semUpd activeSemEdge; split <;> rfl

lemma upsert_entities (st : GraphState) (f t : String) (c now : ℚ) :
    (upsertSemanticEdge st f t c now).entities = st.entities := by
  unfold upsertSemanticEdge; split <;> rfl

lemma upsert_embeddings (st : GraphState) (f t : String) (c now : ℚ) :
    (upsertSemanticEdge st f t c now).embeddings = st.embeddings := by
  unfold upsertSemanticEdge; split <;> rfl

lemma upsert_mono {st : GraphState} {f' t' : String} (f t : String)
    (c now : ℚ) (h : hasActiveSem st f' t') :
    hasActiveSem (upsertSemanticEdge st f t c now) f' t' := by
  obtain ⟨e, he, hsem, hf, ht⟩ := h
  unfold upsertSemanticEdge
  split
  · exact ⟨semUpd f t c e, List.mem_map_of_mem _ he,
      by rw [semUpd_activeSem]; exact hsem,
      by rw [semUpd_fromID]; exact hf,
      by rw [semUpd_toID]; exact ht⟩
  · exact ⟨e, List.mem_append_left _ he, hsem, hf, ht⟩

lemma semNewEdge_active (f t : String) (c now : ℚ) (seq : Nat) :
    activeSemEdge (semNewEdge f t c now seq) = true := by
  unfold activeSemEdge semNewEdge
  simp

lemma upsert_creates (st : GraphState) (f t : String) (c now : ℚ) :
    hasActiveSem (upsertSemanticEdge st f t c now) f t := by
  unfold upsertSemanticEdge
  split
  · rename_i hany
    obtain ⟨e, he, hpe⟩ := List.any_eq_true.mp hany
    simp only [Bool.and_eq_true, beq_iff_eq] at hpe
    refine ⟨semUpd f t c e, List.mem_map_of_mem _ he, ?_, ?_, ?_⟩
    · rw [semUpd_activeSem]; exact hpe.2
    · rw [semUpd_fromID]; exact hpe.1.1
    · rw [semUpd_toID]; exact hpe.1.2
  · exact ⟨semNewEdge f t c now st.edgeSeq,
      List.mem_append_right _ (List.mem_singleton_self _),
      semNewEdge_active f t c now st.edgeSeq, rfl, rfl⟩

lemma upsert_length_of_present {st : GraphState} {f t : String}
    (c now : ℚ) (h : hasActiveSem st f t) :
    (upsertSemanticEdge st f t c now).edges.length = st.edges.length := by
  obtain ⟨e, he, hsem, hf, ht⟩ := h
  unfold upsertSemanticEdge
  rw [if_pos (List.any_eq_true.mpr ⟨e, he, by simp [hf, ht, hsem]⟩)]
  simp

lemma filter_activeSem_map_semUpd (f t : String) (c : ℚ) :
    ∀ l : List CGEdge,
      (l.map (semUpd f t c)).filter activeSemEdge =
        (l.filter activeSemEdge).map (semUpd f t c) := by
  intro l
  induction l with
  | nil => rfl
  | cons x xs ih =>
    rw [List.map_cons, List.filter_cons, List.filter_cons,
      semUpd_activeSem]
    by_cases hx : activeSemEdge x = true
    · rw [hx]
      simp only [if_true, List.map_cons]
      rw [ih]
    · simp only [Bool.not_eq_true] at hx
      rw [hx]
      simp only [Bool.false_eq_true, if_false]
      exact ih

lemma upsert_inv {st : GraphState} {f t : String} (c now : ℚ)
    (hinv : semCanonical st) (hft : f < t) :
    semCanonical (upsertSemanticEdge st f t c now) := by
  unfold upsertSemanticEdge
  split
  · constructor
    · intro e' hmem hsem
      obtain ⟨e, he, rfl⟩ := List.mem_map.mp hmem
      rw [semUpd_activeSem] at hsem
      rw [semUpd_fromID, semUpd_toID]
      exact hinv.1 e he hsem
    · show ((st.edges.map (semUpd f t c)).filter activeSemEdge).Pairwise _
      rw [filter_activeSem_map_semUpd]
      rw [List.pairwise_map]
      refine hinv.2.imp ?_
      intro e1 e2 h12 hc
      rw [semUpd_fromID, semUpd_fromID, semUpd_toID, semUpd_toID] at hc
      exact h12 hc
  · rename_i hany
    constructor
    · intro e' hmem hsem
      rcases List.mem_append.mp hmem with he | he
      · exact hinv.1 e' he hsem
      · rw [List.mem_singleton.mp he]
        exact hft
    · show ((st.edges ++ [semNewEdge f t c now st.edgeSeq]).filter
        activeSemEdge).Pairwise _
      rw [List.filter_append]
      have hnew : [semNewEdge f t c now st.edgeSeq].filter activeSemEdge =
          [semNewEdge f t c now st.edgeSeq] := by
        rw [List.filter_cons, semNewEdge_active]
        rfl
      rw [hnew]
      rw [List.pairwise_append]
      refine ⟨hinv.2, List.pairwise_singleton _ _, ?_⟩
      intro e1 he1 e2 he2 hc
      rw [List.mem_singleton.mp he2] at hc
      obtain ⟨hmem1, hsem1⟩ := List.mem_filter.mp he1
      exact hany (List.any_eq_true.mpr ⟨e1, hmem1,
        by simp [hc.1, hc.2, hsem1, semNewEdge]⟩)

end Alexandria

namespace Alexandria

lemma findSimilar_ne (dist : Vec → Vec → ℚ) (st : GraphState)
    (entityID : String) (limit : Int) (minSim : ℚ) :
    ∀ s ∈ findSimilarToEntity dist st entityID limit minSim,
      s.1 ≠ entityID := by
  unfold findSimilarToEntity
  cases st.embeddings.find? (fun p => p.entityID == entityID) with
  | none => intro s hs; cases hs
  | some e1 =>
    intro s hs
    simp only [List.mem_map] at hs
    obtain ⟨p, hp, rfl⟩ := hs
    have hp2 := List.mem_mergeSort.mp (List.mem_of_mem_take hp)
    have := (List.mem_filter.mp hp2).2
    simp only [Bool.and_eq_true, bne_iff_ne, ne_eq] at this
    exact this.1.1

lemma foldl_preserves {β γ : Type} (g : GraphState → γ)
    (f : GraphState → β → GraphState) (hf : ∀ acc x, g (f acc x) = g acc) :
    ∀ (l : List β) (acc : GraphState), g (l.foldl f acc) = g acc := by
  intro l
  induction l with
  | nil => intro acc; rfl
  | cons x xs ih => intro acc; rw [List.foldl_cons, ih, hf]

lemma foldl_mono {β : Type} (f : GraphState → β → GraphState)
    (hf : ∀ acc x f' t', hasActiveSem acc f' t' →
      hasActiveSem (f acc x) f' t') :
    ∀ (l : List β) (acc : GraphState) (f' t' : String),
      hasActiveSem acc f' t' → hasActiveSem (l.foldl f acc) f' t' := by
  intro l
  induction l with
  | nil => intro acc f' t' h; exact h
  | cons x xs ih =>
    intro acc f' t' h
    rw [List.foldl_cons]
    exact ih _ f' t' (hf acc x f' t' h)

lemma canonicalOrder_cases (a b : String) (hne : b ≠ a) :
    (a < b ∧ canonicalOrder a b = (a, b)) ∨
      (b < a ∧ canonicalOrder a b = (b, a)) := by
  unfold canonicalOrder
  by_cases h : a < b
  · exact Or.inl ⟨h, by rw [if_pos h]⟩
  · exact Or.inr ⟨lt_of_le_of_ne (not_lt.mp h) hne, by rw [if_neg h]⟩

lemma scanPairStep_eq {now : ℚ} {entID : String} {acc : GraphState}
    {s : String × ℚ} (hne : s.1 ≠ entID) :
    (entID < s.1 ∧ scanPairStep now entID acc s =
      upsertSemanticEdge acc entID s.1 s.2 now) ∨
    scanPairStep now entID acc s = acc := by
  simp only [scanPairStep]
  rcases canonicalOrder_cases entID s.1 hne with ⟨hlt, hco⟩ | ⟨hlt, hco⟩
  · rw [hco]
    exact Or.inl ⟨hlt, by rw [if_neg (by simp)]⟩
  · rw [hco]
    exact Or.inr (by rw [if_pos hne])

lemma scanPairStep_entities (now : ℚ) (entID : String) (acc : GraphState)
    (s : String × ℚ) :
    (scanPairStep now entID acc s).entities = acc.entities := by
  simp only [scanPairStep]
  split
  · rfl
  · exact upsert_entities _ _ _ _ _

lemma scanPairStep_embeddings (now : ℚ) (entID : String) (acc : GraphState)
    (s : String × ℚ) :
    (scanPairStep now entID acc s).embeddings = acc.embeddings := by
  simp only [scanPairStep]
  split
  · rfl
  · exact upsert_embeddings _ _ _ _ _

lemma scanPairStep_mono (now : ℚ) (entID : String) (acc : GraphState)
    (s : String × ℚ) (f' t' : String) (h : hasActiveSem acc f' t') :
    hasActiveSem (scanPairStep now entID acc s) f' t' := by
  simp only [scanPairStep]
  split
  · exact h
  · exact upsert_mono _ _ _ _ h

lemma scanPairStep_inv {now : ℚ} {entID : String} {acc : GraphState}
    {s : String × ℚ} (hne : s.1 ≠ entID) (hinv : semCanonical acc) :
    semCanonical (scanPairStep now entID acc s) := by
  rcases scanPairStep_eq hne with ⟨hlt, heq⟩ | heq
  · rw [heq]
    exact upsert_inv _ _ hinv hlt
  · rw [heq]
    exact hinv

lemma scanPairStep_creates {now : ℚ} {entID : String} {acc : GraphState}
    {s : String × ℚ} (hfst : (canonicalOrder entID s.1).1 = entID) :
    hasActiveSem (scanPairStep now entID acc s)
      (canonicalOrder entID s.1).1 (canonicalOrder entID s.1).2 := by
  simp only [scanPairStep]
  rw [if_neg (by simp [hfst])]
  rw [hfst]
  exact upsert_creates _ _ _ _ _

lemma scanPairStep_length_of_present {now : ℚ} {entID : String}
    {acc : GraphState} {s : String × ℚ}
    (h : (canonicalOrder entID s.1).1 = entID →
      hasActiveSem acc (canonicalOrder entID s.1).1
        (canonicalOrder entID s.1).2) :
    (scanPairStep now entID acc s).edges.length = acc.edges.length := by
  simp only [scanPairStep]
  split
  · rfl
  · rename_i hfst
    rw [not_not] at hfst
    exact upsert_length_of_present _ _ (by
      have := h hfst
      rw [hfst] at this ⊢
      exact this)

end Alexandria

namespace Alexandria

lemma upsert_J {st : GraphState} {f t : String} {c now : ℚ} (hft : f < t) :
    ∀ e ∈ (upsertSemanticEdge st f t c now).edges,
      e ∈ st.edges ∨ (activeSemEdge e = true ∧ e.fromID < e.toID) := by
  unfold upsertSemanticEdge
  split
  · intro e' hm
    obtain ⟨e, he, rfl⟩ := List.mem_map.mp hm
    unfold semUpd
    split
    · rename_i hcond
      simp only [Bool.and_eq_true, beq_iff_eq] at hcond
      refine Or.inr ⟨hcond.2, ?_⟩
      show e.fromID < e.toID
      rw [hcond.1.1, hcond.1.2]
      exact hft
    · exact Or.inl he
  · intro e' hm
    rcases List.mem_append.mp hm with he | he
    · exact Or.inl he
    · rw [List.mem_singleton.mp he]
      exact Or.inr ⟨semNewEdge_active _ _ _ _ _, hft⟩

lemma scanPairStep_J {now : ℚ} {entID : String} {acc : GraphState}
    {s : String × ℚ} (hne : s.1 ≠ entID) :
    ∀ e ∈ (scanPairStep now entID acc s).edges,
      e ∈ acc.edges ∨ (activeSemEdge e = true ∧ e.fromID < e.toID) := by
  rcases scanPairStep_eq hne with ⟨hlt, heq⟩ | heq
  · rw [heq]
    exact upsert_J hlt
  · rw [heq]
    exact fun e he => Or.inl he

lemma innerFold_inv (now : ℚ) (entID : String) :
    ∀ (l : List (String × ℚ)) (acc : GraphState),
      (∀ s ∈ l, s.1 ≠ entID) → semCanonical acc →
      semCanonical (l.foldl (scanPairStep now entID) acc) := by
  intro l
  induction l with
  | nil => intro acc _ h; exact h
  | cons x xs ih =>
    intro acc hne hinv
    rw [List.foldl_cons]
    exact ih _ (fun s hs => hne s (List.mem_cons_of_mem _ hs))
      (scanPairStep_inv (hne x (List.mem_cons_self _ _)) hinv)

lemma innerFold_J (now : ℚ) (entID : String) :
    ∀ (l : List (String × ℚ)) (acc : GraphState),
      (∀ s ∈ l, s.1 ≠ entID) →
      ∀ e ∈ (l.foldl (scanPairStep now entID) acc).edges,
        e ∈ acc.edges ∨ (activeSemEdge e = true ∧ e.fromID < e.toID) := by
  intro l
  induction l with
  | nil => intro acc _ e he; exact Or.inl he
  | cons x xs ih =>
    intro acc hne e he
    rw [List.foldl_cons] at he
    rcases ih _ (fun s hs => hne s (List.mem_cons_of_mem _ hs)) e he with
      h | h
    · exact scanPairStep_J (hne x (List.mem_cons_self _ _)) e h
    · exact Or.inr h

lemma innerFold_creates (now : ℚ) (entID : String) :
    ∀ (l : List (String × ℚ)) (acc : GraphState) (s : String × ℚ),
      s ∈ l → (canonicalOrder entID s.1).1 = entID →
      hasActiveSem (l.foldl (scanPairStep now entID) acc)
        (canonicalOrder entID s.1).1 (canonicalOrder entID s.1).2 := by
  intro l
  induction l with
  | nil => intro acc s hs; cases hs
  | cons x xs ih =>
    intro acc s hs hfst
    rw [List.foldl_cons]
    rcases List.mem_cons.mp hs with rfl | hs'
    · exact foldl_mono _ (fun a x f' t' => scanPairStep_mono now entID a x f' t')
        xs _ _ _ (scanPairStep_creates hfst)
    · exact ih _ s hs' hfst

lemma innerFold_length (now : ℚ) (entID : String) :
    ∀ (l : List (String × ℚ)) (acc : GraphState),
      (∀ s ∈ l, s.1 ≠ entID) →
      (∀ s ∈ l, (canonicalOrder entID s.1).1 = entID →
        hasActiveSem acc (canonicalOrder entID s.1).1
          (canonicalOrder entID s.1).2) →
      (l.foldl (scanPairStep now entID) acc).edges.length =
        acc.edges.length := by
  intro l
  induction l with
  | nil => intro acc _ _; rfl
  | cons x xs ih =>
    intro acc hne hpres
    rw [List.foldl_cons]
    rw [ih _ (fun s hs => hne s (List.mem_cons_of_mem _ hs))
      (fun s hs hfst => scanPairStep_mono now entID acc x _ _
        (hpres s (List.mem_cons_of_mem _ hs) hfst))]
    exact scanPairStep_length_of_present (hpres x (List.mem_cons_self _ _))

end Alexandria

namespace Alexandria

lemma scanEntityStep_entities (dist : Vec → Vec → ℚ) (θ now : ℚ)
    (acc : GraphState) (ent : CGEntity) :
    (scanEntityStep dist θ now acc ent).entities = acc.entities := by
  unfold scanEntityStep
  split
  · rfl
  · exact foldl_preserves GraphState.entities _
      (fun a s => scanPairStep_entities now ent.id a s) _ acc

lemma scanEntityStep_embeddings (dist : Vec → Vec → ℚ) (θ now : ℚ)
    (acc : GraphState) (ent : CGEntity) :
    (scanEntityStep dist θ now acc ent).embeddings = acc.embeddings := by
  unfold scanEntityStep
  split
  · rfl
  · exact foldl_preserves GraphState.embeddings _
      (fun a s => scanPairStep_embeddings now ent.id a s) _ acc

lemma scanEntityStep_mono (dist : Vec → Vec → ℚ) (θ now : ℚ)
    (acc : GraphState) (ent : CGEntity) (f' t' : String)
    (h : hasActiveSem acc f' t') :
    hasActiveSem (scanEntityStep dist θ now acc ent) f' t' := by
  unfold scanEntityStep
  split
  · exact h
  · exact foldl_mono _ (fun a x g u => scanPairStep_mono now ent.id a x g u)
      _ _ _ _ h

lemma scanEntityStep_inv (dist : Vec → Vec → ℚ) (θ now : ℚ)
    (acc : GraphState) (ent : CGEntity) (hinv : semCanonical acc) :
    semCanonical (scanEntityStep dist θ now acc ent) := by
  unfold scanEntityStep
  split
  · exact hinv
  · exact innerFold_inv now ent.id _ acc
      (findSimilar_ne dist acc ent.id 10 θ) hinv

lemma scanEntityStep_J (dist : Vec → Vec → ℚ) (θ now : ℚ)
    (acc : GraphState) (ent : CGEntity) :
    ∀ e ∈ (scanEntityStep dist θ now acc ent).edges,
      e ∈ acc.edges ∨ (activeSemEdge e = true ∧ e.fromID < e.toID) := by
  unfold scanEntityStep
  split
  · exact fun e he => Or.inl he
  · exact innerFold_J now ent.id _ acc (findSimilar_ne dist acc ent.id 10 θ)

lemma scanEntityStep_creates (dist : Vec → Vec → ℚ) (θ now : ℚ)
    (acc : GraphState) (ent : CGEntity) (hlive : ent.deletedAt = none)
    (s : String × ℚ) (hs : s ∈ findSimilarToEntity dist acc ent.id 10 θ)
    (hfst : (canonicalOrder ent.id s.1).1 = ent.id) :
    hasActiveSem (scanEntityStep dist θ now acc ent)
      (canonicalOrder ent.id s.1).1 (canonicalOrder ent.id s.1).2 := by
  unfold scanEntityStep
  rw [if_neg (by rw [hlive]; simp)]
  exact innerFold_creates now ent.id _ acc s hs hfst

lemma scanEntityStep_length (dist : Vec → Vec → ℚ) (θ now : ℚ)
    (acc : GraphState) (ent : CGEntity)
    (hpres : ∀ s ∈ findSimilarToEntity dist acc ent.id 10 θ,
      (canonicalOrder ent.id s.1).1 = ent.id →
      hasActiveSem acc (canonicalOrder ent.id s.1).1
        (canonicalOrder ent.id s.1).2) :
    (scanEntityStep dist θ now acc ent).edges.length = acc.edges.length := by
  unfold scanEntityStep
  split
  · rfl
  · exact innerFold_length now ent.id _ acc
      (findSimilar_ne dist acc ent.id 10 θ) hpres

lemma findSimilar_congr {acc st : GraphState}
    (hent : acc.entities = st.entities)
    (hemb : acc.embeddings = st.embeddings) (dist : Vec → Vec → ℚ)
    (id : String) (lim : Int) (θ : ℚ) :
    findSimilarToEntity dist acc id lim θ =
      findSimilarToEntity dist st id lim θ := by
  simp only [findSimilarToEntity, isLiveEntity, hent, hemb]

lemma scan_entities (dist : Vec → Vec → ℚ) (st : GraphState) (θ now : ℚ) :
    (Worker.scanSimilarity dist st θ now).entities = st.entities :=
  foldl_preserves GraphState.entities _
    (fun a ent => scanEntityStep_entities dist θ now a ent) _ st

lemma scan_embeddings (dist : Vec → Vec → ℚ) (st : GraphState)
    (θ now : ℚ) :
    (Worker.scanSimilarity dist st θ now).embeddings = st.embeddings :=
  foldl_preserves GraphState.embeddings _
    (fun a ent => scanEntityStep_embeddings dist θ now a ent) _ st

lemma mem_listEntities_live {st : GraphState} {ent : CGEntity}
    (h : ent ∈ listEntitiesTx st "") : ent.deletedAt = none := by
  unfold listEntitiesTx at h
  have := (List.mem_filter.mp (List.mem_mergeSort.mp h)).2
  simp only [Bool.and_eq_true, Option.isNone_iff_eq_none] at this
  exact this.1

end Alexandria

namespace Alexandria

lemma scan_inv (dist : Vec → Vec → ℚ) (st : GraphState) (θ now : ℚ)
    (hinv : semCanonical st) :
    semCanonical (Worker.scanSimilarity dist st θ now) := by
  unfold Worker.scanSimilarity
  have main : ∀ (l : List CGEntity) (acc : GraphState), semCanonical acc →
      semCanonical (l.foldl (scanEntityStep dist θ now) acc) := by
    intro l
    induction l with
    | nil => intro acc h; exact h
    | cons x xs ih =>
      intro acc h
      rw [List.foldl_cons]
      exact ih _ (scanEntityStep_inv dist θ now acc x h)
  exact main _ st hinv

lemma scan_establishes (dist : Vec → Vec → ℚ) (st : GraphState)
    (θ now : ℚ) :
    ∀ ent ∈ listEntitiesTx st "",
      ∀ s ∈ findSimilarToEntity dist st ent.id 10 θ,
        (canonicalOrder ent.id s.1).1 = ent.id →
        hasActiveSem (Worker.scanSimilarity dist st θ now)
          (canonicalOrder ent.id s.1).1 (canonicalOrder ent.id s.1).2 := by
  intro ent hent s hs hfst
  obtain ⟨l1, l2, hl⟩ := List.append_of_mem hent
  unfold Worker.scanSimilarity
  rw [hl, List.foldl_append, List.foldl_cons]
  have hme : (List.foldl (scanEntityStep dist θ now) st l1).entities =
      st.entities :=
    foldl_preserves GraphState.entities _
      (fun a e => scanEntityStep_entities dist θ now a e) l1 st
  have hmm : (List.foldl (scanEntityStep dist θ now) st l1).embeddings =
      st.embeddings :=
    foldl_preserves GraphState.embeddings _
      (fun a e => scanEntityStep_embeddings dist θ now a e) l1 st
  have hstep := scanEntityStep_creates dist θ now
    (List.foldl (scanEntityStep dist θ now) st l1) ent
    (mem_listEntities_live hent) s
    (by rw [findSimilar_congr hme hmm]; exact hs) hfst
  exact foldl_mono _ (fun a x g u => scanEntityStep_mono dist θ now a x g u)
    l2 _ _ _ hstep

lemma scan_noNewEdges (dist : Vec → Vec → ℚ) (st : GraphState)
    (θ now : ℚ)
    (hpres : ∀ ent ∈ listEntitiesTx st "",
      ∀ s ∈ findSimilarToEntity dist st ent.id 10 θ,
        (canonicalOrder ent.id s.1).1 = ent.id →
        hasActiveSem st (canonicalOrder ent.id s.1).1
          (canonicalOrder ent.id s.1).2) :
    (Worker.scanSimilarity dist st θ now).edges.length =
      st.edges.length := by
  unfold Worker.scanSimilarity
  have main : ∀ (l : List CGEntity),
      (∀ e ∈ l, e ∈ listEntitiesTx st "") →
      ∀ acc : GraphState, acc.entities = st.entities →
        acc.embeddings = st.embeddings →
        acc.edges.length = st.edges.length →
        (∀ f t, hasActiveSem st f t → hasActiveSem acc f t) →
        (l.foldl (scanEntityStep dist θ now) acc).edges.length =
          st.edges.length := by
    intro l
    induction l with
    | nil => intro _ acc _ _ hlen _; exact hlen
    | cons x xs ih =>
      intro hsub acc hent hemb hlen hmono
      rw [List.foldl_cons]
      refine ih (fun e he => hsub e (List.mem_cons_of_mem _ he)) _ ?_ ?_ ?_ ?_
      · rw [scanEntityStep_entities]
        exact hent
      · rw [scanEntityStep_embeddings]
        exact hemb
      · rw [scanEntityStep_length dist θ now acc x ?_]
        · exact hlen
        · intro s hs hfst
          rw [findSimilar_congr hent hemb] at hs
          exact hmono _ _
            (hpres x (hsub x (List.mem_cons_self _ _)) s hs hfst)
      · intro f t h
        exact scanEntityStep_mono dist θ now acc x f t (hmono f t h)
  exact main _ (fun e he => he) st rfl rfl rfl (fun f t h => h)

/-- C8: starting from a state satisfying the canonicalisation invariant
(every active `semantic_similarity` edge runs from the lexicographically
smaller UUID to the larger, at most one such edge per pair), one scanner
pass — and any number of passes — preserves it; every edge a pass adds or
rewrites is an active semantic edge in the canonical direction; and a
second pass over unchanged entities and embeddings creates no additional
edge rows. -/
theorem scanSimilarity_canonical_invariant (dist : Vec → Vec → ℚ)
    (st : GraphState) (θ n1 n2 : ℚ) (hinv : semCanonical st) :
    semCanonical (Worker.scanSimilarity dist st θ n1) ∧
    (∀ k : ℕ,
      semCanonical ((fun s => Worker.scanSimilarity dist s θ n1)^[k] st)) ∧
    (∀ e ∈ (Worker.scanSimilarity dist st θ n1).edges,
      e ∈ st.edges ∨ (activeSemEdge e = true ∧ e.fromID < e.toID)) ∧
    (Worker.scanSimilarity dist (Worker.scanSimilarity dist st θ n1) θ
        n2).edges.length =
      (Worker.scanSimilarity dist st θ n1).edges.length := by
  refine ⟨scan_inv dist st θ n1 hinv, ?_, ?_, ?_⟩
  · intro k
    induction k with
    | zero => simpa using hinv
    | succ n ihn =>
      rw [Function.iterate_succ_apply']
      exact scan_inv dist _ θ n1 ihn
  · unfold Worker.scanSimilarity
    have main : ∀ (l : List CGEntity) (acc : GraphState),
        (∀ e ∈ acc.edges,
          e ∈ st.edges ∨ (activeSemEdge e = true ∧ e.fromID < e.toID)) →
        ∀ e ∈ (l.foldl (scanEntityStep dist θ n1) acc).edges,
          e ∈ st.edges ∨ (activeSemEdge e = true ∧ e.fromID < e.toID) := by
      intro l
      induction l with
      | nil => intro acc h; exact h
      | cons x xs ih =>
        intro acc h
        rw [List.foldl_cons]
        refine ih _ ?_
        intro e he
        rcases scanEntityStep_J dist θ n1 acc x e he with h' | h'
        · exact h e h'
        · exact Or.inr h'
    exact main _ st (fun e he => Or.inl he)
  · apply scan_noNewEdges
    intro ent hent s hs hfst
    have hle : listEntitiesTx (Worker.scanSimilarity dist st θ n1) "" =
        listEntitiesTx st "" := by
      unfold listEntitiesTx
      rw [scan_entities]
    rw [hle] at hent
    rw [findSimilar_congr (scan_entities dist st θ n1)
      (scan_embeddings dist st θ n1)] at hs
    exact scan_establishes dist st θ n1 ent hent s hs hfst

end Alexandria

namespace Alexandria

def scanDist0 : Vec → Vec → ℚ := fun _ _ => 0

def stScanW : GraphState :=
  { entities := [entALive, entB], aliases := [], edges := [],
    provenance := [],
    embeddings := [⟨"a", [1]⟩, ⟨"b", [1]⟩], edgeSeq := 0 }

/-- C8 witness: the theorem applied to a two-entity state with identical
embeddings and no edges — a second scanner pass adds no edge rows. -/
theorem scanSimilarity_witness :
    (Worker.scanSimilarity scanDist0
        (Worker.scanSimilarity scanDist0 stScanW (3/4) 0) (3/4)
        1).edges.length =
      (Worker.scanSimilarity scanDist0 stScanW (3/4) 0).edges.length :=
  (scanSimilarity_canonical_invariant scanDist0 stScanW (3/4) 0 1
    (by refine ⟨?_, ?_⟩ <;> simp [stScanW])).2.2.2

end Alexandria
